import Mathlib

set_option linter.dupNamespace false

/-!
# fogg: plan resolution and template application

A shallow embedding of `plan/plan.go` (override resolution of the configuration
cascade) and `apply/apply.go` (template-tree application) together with the
properties proved about them.

Conventions of the embedding:

* A Go `map[string]V` is an association list `GoMap V`.  A Go map holds every key
  once, so theorems that read a map back assume that its key list has no
  duplicates.  `range` over a map visits the entries in an unspecified order; the
  list order stands for the order of one run, and the theorems hold for every list.
* A Go pointer field `*string` / `*int64` is an `Option`; a slice that may be `nil`
  is an `Option (List String)` (`none` is the nil slice, `some []` the empty one).
* A Go `(T, error)` result is an `Except String T`; `errors.Wrap e msg` is the
  message `msg ++ ": " ++ e`.
-/

/-! ## Go maps -/

/-- Association-list model of a Go `map[string]V`. -/
abbrev GoMap (V : Type) := List (String × V)

/-- Map read `m[k]` with the presence flag. -/
def mapGet {V : Type} : GoMap V → String → Option V
  | [], _ => none
  | (k1, v) :: t, k => if k1 = k then some v else mapGet t k

/-- Map write `m[k] = v`: replaces the entry of `k` when there is one, adds one otherwise. -/
def mapSet {V : Type} : GoMap V → String → V → GoMap V
  | [], k, v => [(k, v)]
  | (k1, v1) :: t, k, v => if k1 = k then (k, v) :: t else (k1, v1) :: mapSet t k v

/-- The keys of a map, in iteration order. -/
def mapKeys {V : Type} (m : GoMap V) : List String := m.map Prod.fst

/-! ## Package `plugins` (external)

A plugin object is opaque to the plan builder and to the engine, which only hand it a
target directory and ask it to install itself.  The two directories are constants of
package `plugins`; they are kept symbolic. -/

namespace plugins

/-- The directory constants handed to `SetTargetPath`. -/
inductive TargetDir where
  | unset
  | CustomPluginDir
  | TerraformCustomPluginCacheDir
  deriving DecidableEq, Repr

/-- A custom plugin or provider binary as declared in the configuration. -/
structure CustomPlugin where
  URL : String
  Format : String
  TargetPath : TargetDir
  deriving DecidableEq, Repr

/-- `SetTargetPath`. -/
def CustomPlugin.SetTargetPath (p : CustomPlugin) (d : TargetDir) : CustomPlugin :=
  { p with TargetPath := d }

end plugins

/-! ## The configuration model (package `config`, consumed by the plan builder)

Only the fields that `plan.go` reads are listed; their types are the ones the
uses in `plan.go` fix (`resolveRequired (def string, override *string)` and so on). -/

namespace config

/-- The `defaults` block: required fields are plain strings. -/
structure Defaults where
  AccountID : Option Int
  AWSProfileBackend : String
  AWSProfileProvider : String
  AWSProviderVersion : String
  AWSRegionBackend : String
  AWSRegionProvider : String
  AWSRegions : Option (List String)
  ExtraVars : GoMap String
  InfraBucket : String
  Owner : String
  Project : String
  TerraformVersion : String
  deriving DecidableEq, Repr

/-- An account scope: every override is optional. -/
structure Account where
  AccountID : Option Int
  AWSProfileBackend : Option String
  AWSProfileProvider : Option String
  AWSProviderVersion : Option String
  AWSRegionBackend : Option String
  AWSRegionProvider : Option String
  AWSRegions : Option (List String)
  ExtraVars : GoMap String
  InfraBucket : Option String
  Owner : Option String
  Project : Option String
  TerraformVersion : Option String
  deriving DecidableEq, Repr

/-- A component scope. -/
structure Component where
  AccountID : Option Int
  AWSProfileBackend : Option String
  AWSProfileProvider : Option String
  AWSProviderVersion : Option String
  AWSRegionBackend : Option String
  AWSRegionProvider : Option String
  AWSRegions : Option (List String)
  ExtraVars : GoMap String
  InfraBucket : Option String
  ModuleSource : Option String
  Owner : Option String
  Project : Option String
  TerraformVersion : Option String
  deriving DecidableEq, Repr

/-- An environment scope with its components. -/
structure Env where
  AccountID : Option Int
  AWSProfileBackend : Option String
  AWSProfileProvider : Option String
  AWSProviderVersion : Option String
  AWSRegionBackend : Option String
  AWSRegionProvider : Option String
  AWSRegions : Option (List String)
  Components : GoMap Component
  ExtraVars : GoMap String
  InfraBucket : Option String
  Owner : Option String
  Project : Option String
  TerraformVersion : Option String
  deriving DecidableEq, Repr

/-- A module scope. -/
structure Module where
  TerraformVersion : Option String
  deriving DecidableEq, Repr

/-- The `plugins` block. -/
structure Plugins where
  CustomPlugins : GoMap plugins.CustomPlugin
  TerraformProviders : GoMap plugins.CustomPlugin
  deriving DecidableEq, Repr

/-- The whole configuration document. -/
structure Config where
  Defaults : Defaults
  Accounts : GoMap Account
  Envs : GoMap Env
  Modules : GoMap Module
  Plugins : Plugins := { CustomPlugins := [], TerraformProviders := [] }
  deriving DecidableEq, Repr

end config

/-! ## `plan/plan.go` -/

namespace plan

/-- The version of the chanzuckerberg/terraform docker image to use. -/
def dockerImageVersion : String := "0.2.1"

/-- Go struct `AWSConfiguration`. -/
structure AWSConfiguration where
  AccountID : Option Int
  AccountName : String
  AWSProfileBackend : String
  AWSProfileProvider : String
  AWSProviderVersion : String
  AWSRegionBackend : String
  AWSRegionProvider : String
  AWSRegions : Option (List String)
  InfraBucket : String
  deriving DecidableEq, Repr

/-- Go struct `account`. -/
structure account extends AWSConfiguration where
  AllAccounts : GoMap Int
  DockerImageVersion : String
  ExtraVars : GoMap String
  Owner : String
  Project : String
  TerraformVersion : String
  deriving DecidableEq, Repr

/-- Go struct `Module`. -/
structure Module where
  DockerImageVersion : String
  TerraformVersion : String
  deriving DecidableEq, Repr

/-- Go struct `Component`. -/
structure Component extends AWSConfiguration where
  Component : String
  DockerImageVersion : String
  Env : String
  ExtraVars : GoMap String
  ModuleSource : Option String
  OtherComponents : List String
  Owner : String
  Project : String
  TerraformVersion : String
  deriving DecidableEq, Repr

/-- Go struct `Env`. -/
structure Env extends AWSConfiguration where
  Components : GoMap Component
  DockerImageVersion : String
  Env : String
  ExtraVars : GoMap String
  Owner : String
  Project : String
  TerraformVersion : String
  deriving DecidableEq, Repr

/-- Go struct `Plugins`: the plan around plugins. -/
structure Plugins where
  CustomPlugins : GoMap plugins.CustomPlugin
  TerraformProviders : GoMap plugins.CustomPlugin
  deriving DecidableEq, Repr

/-- `SetCustomPluginsPlan`: takes the map over and sets the target path of each plugin. -/
def Plugins.SetCustomPluginsPlan (p : Plugins) (customPlugins : GoMap plugins.CustomPlugin) :
    Plugins :=
  { CustomPlugins :=
      List.map (fun kv => (kv.1, kv.2.SetTargetPath plugins.TargetDir.CustomPluginDir))
        customPlugins
    TerraformProviders := p.TerraformProviders }

/-- `SetTerraformProvidersPlan`. -/
def Plugins.SetTerraformProvidersPlan (p : Plugins)
    (terraformProviders : GoMap plugins.CustomPlugin) : Plugins :=
  { CustomPlugins := p.CustomPlugins
    TerraformProviders :=
      List.map
        (fun kv => (kv.1, kv.2.SetTargetPath plugins.TargetDir.TerraformCustomPluginCacheDir))
        terraformProviders }

/-- Go struct `Plan`. -/
structure Plan where
  Accounts : GoMap account
  Envs : GoMap Env
  Global : Component
  Modules : GoMap Module
  Plugins : Plugins
  Version : String
  deriving DecidableEq, Repr

/-- `resolveRequired`: the override when the pointer is set, the default otherwise. -/
def resolveRequired (d : String) (override : Option String) : String :=
  match override with
  | some v => v
  | none => d

/-- `resolveOptionalInt`. -/
def resolveOptionalInt (d : Option Int) (override : Option Int) : Option Int :=
  match override with
  | some v => some v
  | none => d

/-- `resolveStringArray`: the override slice when it is not nil, the default otherwise. -/
def resolveStringArray (d : Option (List String)) (override : Option (List String)) :
    Option (List String) :=
  match override with
  | some l => some l
  | none => d

/-- `resolveExtraVars`: a fresh map that receives every default entry and then
every override entry. -/
def resolveExtraVars (d : GoMap String) (override : GoMap String) : GoMap String :=
  let resolved : GoMap String := []
  let resolved := d.foldl (fun r kv => mapSet r kv.1 kv.2) resolved
  override.foldl (fun r kv => mapSet r kv.1 kv.2) resolved

/-- `resolveAccounts`: the name to identifier map of the accounts that carry an identifier. -/
def resolveAccounts (accounts : GoMap config.Account) : GoMap Int :=
  accounts.foldl
    (fun a kv =>
      match kv.2.AccountID with
      | some id => mapSet a kv.1 id
      | none => a)
    []

/-- `otherComponentNames`: the component names of the map other than `thisComponent`. -/
def otherComponentNames (components : GoMap config.Component) (thisComponent : String) :
    List String :=
  components.foldl
    (fun r kv => if kv.1 ≠ thisComponent then r ++ [kv.1] else r)
    []

/-- Body of the loop of `buildAccounts`: the plan of one account. -/
def accountPlanOf (c : config.Config) (name : String) (conf : config.Account) : account :=
  let defaults := c.Defaults
  { AccountID := resolveOptionalInt c.Defaults.AccountID conf.AccountID
    AccountName := name
    AWSProfileBackend := resolveRequired defaults.AWSProfileBackend conf.AWSProfileBackend
    AWSProfileProvider := resolveRequired defaults.AWSProfileProvider conf.AWSProfileProvider
    AWSProviderVersion := resolveRequired defaults.AWSProviderVersion conf.AWSProviderVersion
    AWSRegionBackend := resolveRequired defaults.AWSRegionBackend conf.AWSRegionBackend
    AWSRegionProvider := resolveRequired defaults.AWSRegionProvider conf.AWSRegionProvider
    AWSRegions := resolveStringArray defaults.AWSRegions conf.AWSRegions
    InfraBucket := resolveRequired defaults.InfraBucket conf.InfraBucket
    AllAccounts := resolveAccounts c.Accounts
    DockerImageVersion := dockerImageVersion
    ExtraVars := resolveExtraVars defaults.ExtraVars conf.ExtraVars
    Owner := resolveRequired defaults.Owner conf.Owner
    Project := resolveRequired defaults.Project conf.Project
    TerraformVersion := resolveRequired defaults.TerraformVersion conf.TerraformVersion }

/-- `buildAccounts`: one plan per configured account; the error result is always nil. -/
def buildAccounts (c : config.Config) : Except String (GoMap account) :=
  .ok (c.Accounts.foldl (fun accountPlans kv => mapSet accountPlans kv.1 (accountPlanOf c kv.1 kv.2)) [])

/-- `buildModules`. -/
def buildModules (c : config.Config) : Except String (GoMap Module) :=
  .ok (c.Modules.foldl
    (fun modulePlans kv =>
      mapSet modulePlans kv.1
        { DockerImageVersion := dockerImageVersion
          TerraformVersion := resolveRequired c.Defaults.TerraformVersion kv.2.TerraformVersion })
    [])

/-- `buildGlobal`: the global component takes the defaults as they are. -/
def buildGlobal (conf : config.Config) : Except String Component :=
  .ok
    { AccountID := conf.Defaults.AccountID
      AccountName := ""
      AWSProfileBackend := conf.Defaults.AWSProfileBackend
      AWSProfileProvider := conf.Defaults.AWSProfileProvider
      AWSProviderVersion := conf.Defaults.AWSProviderVersion
      AWSRegionBackend := conf.Defaults.AWSRegionBackend
      AWSRegionProvider := conf.Defaults.AWSRegionProvider
      AWSRegions := conf.Defaults.AWSRegions
      InfraBucket := conf.Defaults.InfraBucket
      Component := "global"
      DockerImageVersion := dockerImageVersion
      Env := ""
      ExtraVars := conf.Defaults.ExtraVars
      ModuleSource := none
      OtherComponents := []
      Owner := conf.Defaults.Owner
      Project := conf.Defaults.Project
      TerraformVersion := conf.Defaults.TerraformVersion }

/-- The environment plan before its components are filled in (`newEnvPlan` followed by
the field assignments at the head of the loop of `buildEnvs`). -/
def envPlanHead (conf : config.Config) (envName : String) (envConf : config.Env) : Env :=
  let defaults := conf.Defaults
  let defaultExtraVars := defaults.ExtraVars
  { AccountID := resolveOptionalInt conf.Defaults.AccountID envConf.AccountID
    AccountName := ""
    AWSProfileBackend := resolveRequired defaults.AWSProfileBackend envConf.AWSProfileBackend
    AWSProfileProvider := resolveRequired defaults.AWSProfileProvider envConf.AWSProfileProvider
    AWSProviderVersion := resolveRequired defaults.AWSProviderVersion envConf.AWSProviderVersion
    AWSRegionBackend := resolveRequired defaults.AWSRegionBackend envConf.AWSRegionBackend
    AWSRegionProvider := resolveRequired defaults.AWSRegionProvider envConf.AWSRegionProvider
    AWSRegions := resolveStringArray defaults.AWSRegions envConf.AWSRegions
    InfraBucket := resolveRequired defaults.InfraBucket envConf.InfraBucket
    Components := []
    DockerImageVersion := dockerImageVersion
    Env := envName
    ExtraVars := resolveExtraVars defaultExtraVars envConf.ExtraVars
    Owner := resolveRequired defaults.Owner envConf.Owner
    Project := resolveRequired defaults.Project envConf.Project
    TerraformVersion := resolveRequired defaults.TerraformVersion envConf.TerraformVersion }

/-- Body of the inner loop of `buildEnvs`: the plan of one component, resolved against
the environment plan `envPlan`. -/
def componentPlanOf (envPlan : Env) (envName : String) (components : GoMap config.Component)
    (componentName : String) (componentConf : config.Component) : Component :=
  { AccountID := resolveOptionalInt envPlan.AccountID componentConf.AccountID
    AccountName := ""
    AWSProfileBackend := resolveRequired envPlan.AWSProfileBackend componentConf.AWSProfileBackend
    AWSProfileProvider := resolveRequired envPlan.AWSProfileProvider componentConf.AWSProfileProvider
    AWSProviderVersion := resolveRequired envPlan.AWSProviderVersion componentConf.AWSProviderVersion
    AWSRegionBackend := resolveRequired envPlan.AWSRegionBackend componentConf.AWSRegionBackend
    AWSRegionProvider := resolveRequired envPlan.AWSRegionProvider componentConf.AWSRegionProvider
    AWSRegions := resolveStringArray envPlan.AWSRegions componentConf.AWSRegions
    InfraBucket := resolveRequired envPlan.InfraBucket componentConf.InfraBucket
    Component := componentName
    DockerImageVersion := dockerImageVersion
    Env := envName
    ExtraVars := resolveExtraVars envPlan.ExtraVars componentConf.ExtraVars
    ModuleSource := componentConf.ModuleSource
    OtherComponents := otherComponentNames components componentName
    Owner := resolveRequired envPlan.Owner componentConf.Owner
    Project := resolveRequired envPlan.Project componentConf.Project
    TerraformVersion := resolveRequired envPlan.TerraformVersion componentConf.TerraformVersion }

/-- Body of the outer loop of `buildEnvs`: the plan of one environment with all its
components. -/
def envPlanOf (conf : config.Config) (envName : String) (envConf : config.Env) : Env :=
  let envPlan := envPlanHead conf envName envConf
  { envPlan with
    Components := envConf.Components.foldl
      (fun comps kv => mapSet comps kv.1 (componentPlanOf envPlan envName envConf.Components kv.1 kv.2))
      envPlan.Components }

/-- `buildEnvs`: one plan per configured environment; the error result is always nil. -/
def buildEnvs (conf : config.Config) : Except String (GoMap Env) :=
  .ok (conf.Envs.foldl (fun envPlans kv => mapSet envPlans kv.1 (envPlanOf conf kv.1 kv.2)) [])

/-- `Eval`: builds the plan.  `versionString` is the result of `util.VersionString()`,
the only call of `Eval` that can hand back an error. -/
def Eval (versionString : Except String String) (config : config.Config) : Except String Plan :=
  match versionString with
  | .error e => .error ("unable to parse fogg version" ++ ": " ++ e)
  | .ok v =>
    let plugins : Plugins := { CustomPlugins := [], TerraformProviders := [] }
    let plugins := plugins.SetCustomPluginsPlan config.Plugins.CustomPlugins
    let plugins := plugins.SetTerraformProvidersPlan config.Plugins.TerraformProviders
    match buildAccounts config with
    | .error err => .error err
    | .ok accounts =>
      match buildEnvs config with
      | .error err => .error err
      | .ok envs =>
        match buildGlobal config with
        | .error err => .error err
        | .ok global =>
          match buildModules config with
          | .error err => .error err
          | .ok modules =>
            .ok { Accounts := accounts, Envs := envs, Global := global, Modules := modules,
                  Plugins := plugins, Version := v }

end plan

/-! ## Go standard library: `path/filepath` and `strings` (Unix)

Go strings are byte strings; the separator and the dot are ASCII, so working on
characters gives the same cuts. -/

namespace filepath

/-- Scan of `Ext` from the last byte backwards: `rev` is what is still to be read
(reversed), `acc` the bytes already passed. -/
def extAux : List Char → List Char → List Char
  | [], _ => []
  | c :: rest, acc =>
    if c = '/' then []
    else if c = '.' then '.' :: acc
    else extAux rest (c :: acc)

/-- `filepath.Ext`: the suffix beginning at the final dot in the final element of
`path`; empty if there is no dot. -/
def Ext (path : String) : String := ⟨extAux path.data.reverse []⟩

/-- The elements of a path between separators (empty elements included). -/
def splitSep : List Char → List (List Char)
  | [] => [[]]
  | c :: cs =>
    if c = '/' then [] :: splitSep cs
    else
      match splitSep cs with
      | h :: t => (c :: h) :: t
      | [] => [[c]]

/-- Elements joined with the separator. -/
def joinSep : List (List Char) → List Char
  | [] => []
  | [x] => x
  | x :: y :: t => x ++ '/' :: joinSep (y :: t)

/-- One round of the loop of `Clean`.  The state is the list of elements written so
far and `dotdot`, the number of leading elements that a `..` must not remove. -/
def cleanStep (rooted : Bool) (st : List (List Char) × Nat) (elem : List Char) :
    List (List Char) × Nat :=
  if elem = [] then st
  else if elem = ['.'] then st
  else if elem = ['.', '.'] then
    if st.1.length > st.2 then (st.1.dropLast, st.2)
    else if rooted = false then (st.1 ++ [elem], st.1.length + 1)
    else st
  else (st.1 ++ [elem], st.2)

/-- `filepath.Clean`: the shortest path name equivalent to `path` by purely lexical
processing. -/
def Clean (path : String) : String :=
  if path = "" then "."
  else
    let rooted : Bool := path.data.head? = some '/'
    let out := ((splitSep path.data).foldl (cleanStep rooted) ([], 0)).1
    if rooted then ⟨'/' :: joinSep out⟩
    else if out = [] then "."
    else ⟨joinSep out⟩

/-- `filepath.Join` of two elements: leading empty elements are ignored, the rest is
joined with the separator and cleaned. -/
def Join (a b : String) : String :=
  if a ≠ "" then Clean (a ++ "/" ++ b)
  else if b ≠ "" then Clean b
  else ""

end filepath

namespace strings

/-- `strings.HasSuffix`. -/
def HasSuffix (s suffix : String) : Bool := decide (suffix.data <:+ s.data)

/-- `strings.TrimSuffix`: `s` without the trailing `suffix`, or `s` itself. -/
def TrimSuffix (s suffix : String) : String :=
  if HasSuffix s suffix then ⟨s.data.take (s.data.length - suffix.data.length)⟩ else s

end strings

namespace filepath

/-- `filepath.Split`: the path up to and including the final separator, and the rest. -/
def Split (path : String) : String × String :=
  (⟨(path.data.reverse.dropWhile (fun c => c != '/')).reverse⟩,
   ⟨(path.data.reverse.takeWhile (fun c => c != '/')).reverse⟩)

/-- `filepath.Dir`: all but the last element of `path`, cleaned. -/
def Dir (path : String) : String := Clean (Split path).1

/-- The ancestors named by the elements `rev` (last element first) of a path, nearest
first, below the working directory or the root. -/
def parentsOfRev (rooted : Bool) : List (List Char) → List String
  | [] => []
  | _ :: rest =>
    if rest = [] then []
    else ⟨(if rooted then ['/'] else []) ++ joinSep rest.reverse⟩ :: parentsOfRev rooted rest

/-- The proper ancestors of a cleaned path, nearest first; the working directory and
the root are not listed. -/
def parents (c : String) : List String :=
  parentsOfRev (c.data.head? = some '/')
    ((splitSep c.data).filter (fun e => decide (e ≠ []))).reverse

end filepath

/-! ## `apply/apply.go`: the template engine

The target file store maps a path to the file or the directory that is there.  It
behaves as a file store of the operating system does: a file is created only inside an
existing directory, `MkdirAll` and `afero.WriteReader` create the missing directories,
`Stat` succeeds on files and on directories.  Failures that do not depend on the
content of the store (permissions, a full disk) are not modelled.  The two external
transforms, template execution and HCL formatting, are fields of `External`. -/

namespace apply

/-- What a path of the file store holds. -/
inductive Node where
  | file (content : String)
  | dir
  deriving DecidableEq, Repr

/-- The target filesystem: path to node. -/
abbrev Fs := String → Option Node

/-- A packaged template tree in walk order: path and content of each file. -/
abbrev Box := List (String × String)

/-- The external collaborators of the engine.  `execute src subst` is what executing
the template `src` against `subst` writes, with the error it ends on, if any;
`format` is `printer.Format`. -/
structure External (σ : Type) where
  execute : String → σ → String × Option String
  format : String → Except String String

/-- The file store with the file `content` at `path`. -/
def writeFile (fs : Fs) (path content : String) : Fs :=
  fun q => if q = path then some (Node.file content) else fs q

/-- `errors.Wrap`. -/
def wrap (e msg : String) : String := msg ++ ": " ++ e

/-- `fs.Stat` returns no error: something is at `path`. -/
def Stat (fs : Fs) (path : String) : Bool := (fs path).isSome

/-- `fs.Create`, and `fs.OpenFile` with create and truncate: an existing file is
emptied, a new file needs its directory, a directory cannot be opened for writing. -/
def Create (fs : Fs) (path : String) : Fs × Option String :=
  match fs path with
  | some Node.dir => (fs, some ("open " ++ path ++ ": is a directory"))
  | some (Node.file _) => (writeFile fs path "", none)
  | none =>
    if fs (filepath.Dir path) = some Node.dir then (writeFile fs path "", none)
    else (fs, some ("open " ++ path ++ ": no such file or directory"))

/-- `Mkdir`: a new directory inside an existing one. -/
def Mkdir (fs : Fs) (path : String) : Fs × Option String :=
  match fs path with
  | some _ => (fs, some ("mkdir " ++ path ++ ": file exists"))
  | none =>
    if fs (filepath.Dir path) = some Node.dir then
      (fun q => if q = path then some Node.dir else fs q, none)
    else (fs, some ("mkdir " ++ path ++ ": no such file or directory"))

/-- The recursion of `MkdirAll` over a path and its ancestors, nearest first: done when
the path is a directory, an error when it is a file, and otherwise the parent first and
then the path itself. -/
def mkdirAllAux (fs : Fs) : List String → Fs × Option String
  | [] => (fs, none)
  | p :: ps =>
    match fs p with
    | some Node.dir => (fs, none)
    | some (Node.file _) => (fs, some ("mkdir " ++ p ++ ": not a directory"))
    | none =>
      match mkdirAllAux fs ps with
      | (fs1, some e) => (fs1, some e)
      | (fs1, none) => Mkdir fs1 p

/-- `fs.MkdirAll`: the directory and every missing ancestor. -/
def MkdirAll (fs : Fs) (path : String) : Fs × Option String :=
  mkdirAllAux fs (filepath.Clean path :: filepath.parents (filepath.Clean path))

/-- `afero.ReadFile`. -/
def ReadFile (fs : Fs) (path : String) : Except String String :=
  match fs path with
  | some (Node.file c) => .ok c
  | some Node.dir => .error ("read " ++ path ++ ": is a directory")
  | none => .error ("open " ++ path ++ ": file does not exist")

/-- `afero.WriteReader`: makes the directory of `path`, creates the file and copies the
content into it. -/
def WriteReader (fs : Fs) (path content : String) : Fs × Option String :=
  let dir := (filepath.Split path).1
  match (if dir ≠ "" then MkdirAll fs dir else (fs, none)) with
  | (fs1, some e) => (fs1, some e)
  | (fs1, none) =>
    match Create fs1 path with
    | (fs2, some e) => (fs2, some e)
    | (fs2, none) => (writeFile fs2 path content, none)

/-- `removeExtension`. -/
def removeExtension (path : String) : String :=
  strings.TrimSuffix path (filepath.Ext path)

/-- `getTargetPath`. -/
def getTargetPath (basePath path : String) : String :=
  let target := filepath.Join basePath path
  let extension := filepath.Ext path
  if extension = ".tmpl" ∨ extension = ".touch" ∨ extension = ".create" then
    removeExtension target
  else target

/-- `fmtHcl`: reads the file, formats it and writes it back. -/
def fmtHcl {σ : Type} (X : External σ) (fs : Fs) (path : String) : Fs × Option String :=
  match ReadFile fs path with
  | .error e => (fs, some (wrap e ("unable to read file " ++ path)))
  | .ok input =>
    match X.format input with
    | .error e => (fs, some (wrap e ("fmt hcl failed for " ++ path)))
    | .ok out => WriteReader fs path out

/-- `touchFile`: creates an empty file unless `Stat` finds something at `path`. -/
def touchFile (dest : Fs) (path : String) : Fs × Option String :=
  if Stat dest path then (dest, none)
  else
    match Create dest path with
    | (fs1, some e) => (fs1, some (wrap e "unable to touch file"))
    | (fs1, none) => (fs1, none)

/-- `createFile`: copies the source unless `Stat` finds something at `path`. -/
def createFile (dest : Fs) (path : String) (sourceFile : String) : Fs × Option String :=
  if Stat dest path then (dest, none)
  else
    match WriteReader dest path sourceFile with
    | (fs1, some e) => (fs1, some (wrap e "unable to create file"))
    | (fs1, none) => (fs1, none)

/-- `applyTemplate`: opens the target, emptying it, and writes what the template
produces. -/
def applyTemplate {σ : Type} (X : External σ) (sourceFile : String) (dest : Fs) (path : String)
    (overrides : σ) : Fs × Option String :=
  match Create dest path with
  | (fs1, some e) => (fs1, some (wrap e "unable to open file"))
  | (fs1, none) =>
    let r := X.execute sourceFile overrides
    (writeFile fs1 path r.1, r.2)

/-- The callback of the walk in `applyTree`, for one file of the box. -/
def applyFile {σ : Type} (X : External σ) (dest : Fs) (targetBasePath : String) (subst : σ)
    (path sourceFile : String) : Fs × Option String :=
  let extension := filepath.Ext path
  let target := getTargetPath targetBasePath path
  let targetExtension := filepath.Ext target
  let r : Fs × Option String :=
    if extension = ".tmpl" then
      let r := applyTemplate X sourceFile dest target subst
      (r.1, r.2.map (fun e => wrap e "unable to apply template"))
    else if extension = ".touch" then
      let r := touchFile dest target
      (r.1, r.2.map (fun e => wrap e ("unable to touch file " ++ target)))
    else if extension = ".create" then
      let r := createFile dest target sourceFile
      (r.1, r.2.map (fun e => wrap e ("unable to create file " ++ target)))
    else
      let r := WriteReader dest target sourceFile
      (r.1, r.2.map (fun e => wrap e "unable to copy file"))
  match r.2 with
  | some e => (r.1, some e)
  | none =>
    if targetExtension = ".tf" then
      let r2 := fmtHcl X r.1 target
      (r2.1, r2.2.map (fun e => wrap e "unable to format HCL"))
    else (r.1, none)

/-- `applyTree`: walks the box and stops at the first error.  The result is the file
store as the walk left it and the error, if any. -/
def applyTree {σ : Type} (X : External σ) (dest : Fs) (source : Box) (targetBasePath : String)
    (subst : σ) : Fs × Option String :=
  match source with
  | [] => (dest, none)
  | f :: rest =>
    match applyFile X dest targetBasePath subst f.1 f.2 with
    | (dest1, some e) => (dest1, some e)
    | (dest1, none) => applyTree X dest1 rest targetBasePath subst

end apply

/-! ## More of the standard library and of the external packages

`sort.Strings`, `filepath.Base` and the one regular expression of `apply.go` are
modelled; `filepath.Rel`, `getter.Detect`, `url.Parse`, the module download and the
plugin installer are taken as given functions (fields of `apply.Host`). -/

namespace sort

/-- `sort.Strings`: sorts a slice of strings in increasing order, which for strings is
the lexicographic order of their bytes. -/
def Strings (a : List String) : List String := a.insertionSort (fun x y => x.data ≤ y.data)

end sort

namespace filepath

/-- `filepath.Base`: the last element of `path`, trailing separators removed first;
`.` for the empty path and the separator for a path of separators only. -/
def Base (path : String) : String :=
  if path = "" then "."
  else
    let stripped := path.data.reverse.dropWhile (fun c => c == '/')
    let last := (stripped.takeWhile (fun c => c != '/')).reverse
    if last = [] then "/" else ⟨last⟩

end filepath

namespace regexp

/-- Scan of `ReplaceAllString` for the expression `\?ref=.*` and the empty replacement.
`skip` counts the bytes of a matched `?ref=` still to pass, `inMatch` says that the scan
is inside the `.*` of a match, which ends before the next line feed or at the end. -/
def stripRefAux : Nat → Bool → List Char → List Char
  | _, _, [] => []
  | k + 1, m, _ :: cs => stripRefAux k m cs
  | 0, true, c :: cs =>
    if c = '\n' then c :: stripRefAux 0 false cs else stripRefAux 0 true cs
  | 0, false, c :: cs =>
    if ['?', 'r', 'e', 'f', '='] <+: c :: cs then stripRefAux 4 true cs
    else c :: stripRefAux 0 false cs

/-- The text without every match of `\?ref=.*`. -/
def stripRef (s : String) : String := ⟨stripRefAux 0 false s.data⟩

end regexp

namespace util

/-- A declared input variable of a module. -/
structure Variable where
  Name : String
  deriving DecidableEq, Repr

/-- A declared output of a module. -/
structure Output where
  Name : String
  deriving DecidableEq, Repr

/-- What `util.DownloadAndParseModule` reports of a module, in the order reported. -/
structure ModuleConfig where
  Variables : List Variable
  Outputs : List Output
  deriving DecidableEq, Repr

end util

namespace url

/-- The part of a parsed URL that `apply.go` reads. -/
structure URL where
  Scheme : String
  deriving DecidableEq, Repr

end url

namespace templates

/-- The template boxes handed to `Apply`. -/
structure T where
  Repo : apply.Box
  Account : apply.Box
  Env : apply.Box
  Component : apply.Box
  Global : apply.Box
  Module : apply.Box

end templates

/-! ## `apply/apply.go`: module invocations and the orchestrator -/

namespace apply

/-- The root of the generated tree. -/
def rootPath : String := "terraform"

/-- Go struct `moduleData`. -/
structure moduleData where
  ModuleName : String
  ModuleSource : String
  Variables : List String
  Outputs : List String
  deriving DecidableEq, Repr

/-- The values that are passed to the templates as substitution data. -/
inductive Subst where
  | plan (p : plan.Plan)
  | account (a : plan.account)
  | env (e : plan.Env)
  | component (c : plan.Component)
  | modulePlan (m : plan.Module)
  | moduleData (d : moduleData)

/-- Everything `Apply` calls outside `plan.go` and `apply.go`: template execution and
formatting, `util.VersionString`, `plugin.Install`, `util.DownloadAndParseModule`,
`getter.Detect` (result and error), `url.Parse`, `filepath.Rel`, and the box
`templates.Templates.ModuleInvocation`. -/
structure Host extends External Subst where
  versionString : Except String String
  install : plugins.CustomPlugin → Fs → String → Fs × Option String
  downloadAndParseModule : String → Except String util.ModuleConfig
  detect : String → String → String × Option String
  parse : String → Except String url.URL
  rel : String → String → Except String String
  moduleInvocation : Box

/-- `box.Open`: the content of the file of that name. -/
def boxOpen (box : Box) (name : String) : Except String String :=
  match box.find? (fun f => f.1 = name) with
  | some f => .ok f.2
  | none => .error "file does not exist"

/-- `calculateModuleAddressForSource`: the relative path from the component to the
module when the detected address does not parse or has the scheme `file`, the address
itself otherwise.  The errors of `Detect` and of `Rel` are dropped, as in the source. -/
def calculateModuleAddressForSource (H : Host) (path moduleAddress : String) :
    String × Option String :=
  let s := (H.detect moduleAddress path).1
  let relative : String :=
    match H.rel path moduleAddress with
    | .ok r => r
    | .error _ => ""
  let moduleAddressForSource : String :=
    match H.parse s with
    | .error _ => relative
    | .ok u => if u.Scheme = "file" then relative else moduleAddress
  (moduleAddressForSource, none)

/-- The display name of a module: the base of the address without `?ref=...`. -/
def moduleNameOf (moduleAddress : String) : String :=
  let moduleName := filepath.Base moduleAddress
  regexp.stripRef moduleName

/-- The `moduleData` value that `applyModuleInvocation` builds from the parsed module
and hands to both templates. -/
def moduleDataOf (H : Host) (path moduleAddress : String) (moduleConfig : util.ModuleConfig) :
    moduleData :=
  let variableNames := sort.Strings (moduleConfig.Variables.map (fun v => v.Name))
  let outputNames := sort.Strings (moduleConfig.Outputs.map (fun o => o.Name))
  let moduleName := moduleNameOf moduleAddress
  let moduleAddressForSource := (calculateModuleAddressForSource H path moduleAddress).1
  { ModuleName := moduleName, ModuleSource := moduleAddressForSource,
    Variables := variableNames, Outputs := outputNames }

/-- One of the two halves of `applyModuleInvocation`: open the template `name ++ ".tmpl"`,
execute it into `name` under `path` and format the result. -/
def applyInvocationFile (H : Host) (fs : Fs) (path : String) (box : Box) (name : String)
    (d : moduleData) : Fs × Option String :=
  match boxOpen box (name ++ ".tmpl") with
  | .error e => (fs, some (wrap e "could not open template file"))
  | .ok f =>
    match applyTemplate H.toExternal f fs (filepath.Join path name) (Subst.moduleData d) with
    | (fs1, some e) => (fs1, some (wrap e ("unable to apply template for " ++ name)))
    | (fs1, none) =>
      match fmtHcl H.toExternal fs1 (filepath.Join path name) with
      | (fs2, some e) => (fs2, some (wrap e ("unable to format " ++ name)))
      | (fs2, none) => (fs2, none)

/-- `applyModuleInvocation`. -/
def applyModuleInvocation (H : Host) (fs : Fs) (path moduleAddress : String) (box : Box) :
    Fs × Option String :=
  match MkdirAll fs path with
  | (fs0, some e) => (fs0, some (wrap e ("couldn't create " ++ path ++ " directory")))
  | (fs0, none) =>
    match H.downloadAndParseModule moduleAddress with
    | .error e => (fs0, some (wrap e "could not download or parse module"))
    | .ok moduleConfig =>
      let d := moduleDataOf H path moduleAddress moduleConfig
      match applyInvocationFile H fs0 path box "main.tf" d with
      | (fs1, some e) => (fs1, some e)
      | (fs1, none) => applyInvocationFile H fs1 path box "outputs.tf" d

/-- The loops of `applyPlugins`: install every plugin of a map, stop at the first error. -/
def applyPluginMap (H : Host) : Fs → GoMap plugins.CustomPlugin → Fs × Option String
  | fs, [] => (fs, none)
  | fs, kv :: rest =>
    match H.install kv.2 fs kv.1 with
    | (fs1, some e) => (fs1, some (wrap e ("Error applying plugin " ++ kv.1)))
    | (fs1, none) => applyPluginMap H fs1 rest

/-- `applyPlugins`: the custom plugins, then the terraform providers. -/
def applyPlugins (H : Host) (fs : Fs) (p : plan.Plan) : Fs × Option String :=
  match applyPluginMap H fs p.Plugins.CustomPlugins with
  | (fs1, some e) => (fs1, some e)
  | (fs1, none) => applyPluginMap H fs1 p.Plugins.TerraformProviders

/-- `applyRepo`: the repository tree, then the plugins. -/
def applyRepo (H : Host) (fs : Fs) (p : plan.Plan) (repoTemplates : Box) : Fs × Option String :=
  match applyTree H.toExternal fs repoTemplates "" (Subst.plan p) with
  | (fs1, some e) => (fs1, some e)
  | (fs1, none) => applyPlugins H fs1 p

/-- `applyGlobal`. -/
def applyGlobal (H : Host) (fs : Fs) (p : plan.Component) (repoBox : Box) : Fs × Option String :=
  let path := rootPath ++ "/global"
  match MkdirAll fs path with
  | (fs1, some e) => (fs1, some (wrap e ("unable to make directory " ++ path)))
  | (fs1, none) => applyTree H.toExternal fs1 repoBox path (Subst.component p)

/-- The loop of `applyAccounts`. -/
def applyAccountMap (H : Host) (accountBox : Box) : Fs → GoMap plan.account → Fs × Option String
  | fs, [] => (fs, none)
  | fs, kv :: rest =>
    let path := rootPath ++ "/accounts/" ++ kv.1
    match MkdirAll fs path with
    | (fs1, some e) => (fs1, some (wrap e "unable to make directories for accounts"))
    | (fs1, none) =>
      match applyTree H.toExternal fs1 accountBox path (Subst.account kv.2) with
      | (fs2, some e) => (fs2, some (wrap e "unable to apply templates to account"))
      | (fs2, none) => applyAccountMap H accountBox fs2 rest

/-- `applyAccounts`. -/
def applyAccounts (H : Host) (fs : Fs) (p : plan.Plan) (accountBox : Box) : Fs × Option String :=
  applyAccountMap H accountBox fs p.Accounts

/-- The loop of `applyModules`. -/
def applyModuleMap (H : Host) (moduleBox : Box) : Fs → GoMap plan.Module → Fs × Option String
  | fs, [] => (fs, none)
  | fs, kv :: rest =>
    let path := rootPath ++ "/modules/" ++ kv.1
    match MkdirAll fs path with
    | (fs1, some e) => (fs1, some (wrap e ("unable to make path " ++ path)))
    | (fs1, none) =>
      match applyTree H.toExternal fs1 moduleBox path (Subst.modulePlan kv.2) with
      | (fs2, some e) => (fs2, some (wrap e "unable to apply tree"))
      | (fs2, none) => applyModuleMap H moduleBox fs2 rest

/-- `applyModules`. -/
def applyModules (H : Host) (fs : Fs) (p : GoMap plan.Module) (moduleBox : Box) :
    Fs × Option String :=
  applyModuleMap H moduleBox fs p

/-- The body of the inner loop of `applyEnvs` for one component: its tree, then its
module invocation when it has a module source. -/
def applyComponent (H : Host) (componentBox : Box) (env : String) (fs : Fs)
    (kv : String × plan.Component) : Fs × Option String :=
  let path := rootPath ++ "/envs/" ++ env ++ "/" ++ kv.1
  match MkdirAll fs path with
  | (fs1, some e) => (fs1, some (wrap e "unable to make directories for component"))
  | (fs1, none) =>
    match applyTree H.toExternal fs1 componentBox path (Subst.component kv.2) with
    | (fs2, some e) => (fs2, some (wrap e "unable to apply templates for component"))
    | (fs2, none) =>
      match kv.2.ModuleSource with
      | some moduleSource =>
        match applyModuleInvocation H fs2 path moduleSource H.moduleInvocation with
        | (fs3, some e) => (fs3, some (wrap e "unable to apply module invocation"))
        | (fs3, none) => (fs3, none)
      | none => (fs2, none)

/-- The inner loop of `applyEnvs`. -/
def applyComponentMap (H : Host) (componentBox : Box) (env : String) :
    Fs → GoMap plan.Component → Fs × Option String
  | fs, [] => (fs, none)
  | fs, kv :: rest =>
    match applyComponent H componentBox env fs kv with
    | (fs1, some e) => (fs1, some e)
    | (fs1, none) => applyComponentMap H componentBox env fs1 rest

/-- The outer loop of `applyEnvs`. -/
def applyEnvMap (H : Host) (envBox componentBox : Box) : Fs → GoMap plan.Env → Fs × Option String
  | fs, [] => (fs, none)
  | fs, kv :: rest =>
    let path := rootPath ++ "/envs/" ++ kv.1
    match MkdirAll fs path with
    | (fs1, some e) => (fs1, some (wrap e ("unable to make directory " ++ path)))
    | (fs1, none) =>
      match applyTree H.toExternal fs1 envBox path (Subst.env kv.2) with
      | (fs2, some e) => (fs2, some (wrap e "unable to apply templates to env"))
      | (fs2, none) =>
        match applyComponentMap H componentBox kv.1 fs2 kv.2.Components with
        | (fs3, some e) => (fs3, some e)
        | (fs3, none) => applyEnvMap H envBox componentBox fs3 rest

/-- `applyEnvs`. -/
def applyEnvs (H : Host) (fs : Fs) (p : plan.Plan) (envBox componentBox : Box) :
    Fs × Option String :=
  applyEnvMap H envBox componentBox fs p.Envs

/-- `Apply`: evaluates the plan and applies the repository, the accounts, the
environments, the global component and the modules, in this order. -/
def Apply (H : Host) (fs : Fs) (conf : config.Config) (tmp : templates.T) : Fs × Option String :=
  match plan.Eval H.versionString conf with
  | .error err => (fs, some (wrap err "unable to evaluate plan"))
  | .ok p =>
    match applyRepo H fs p tmp.Repo with
    | (fs1, some e) => (fs1, some (wrap e "unable to apply repo"))
    | (fs1, none) =>
      match applyAccounts H fs1 p tmp.Account with
      | (fs2, some e) => (fs2, some (wrap e "unable to apply accounts"))
      | (fs2, none) =>
        match applyEnvs H fs2 p tmp.Env tmp.Component with
        | (fs3, some e) => (fs3, some (wrap e "unable to apply envs"))
        | (fs3, none) =>
          match applyGlobal H fs3 p.Global tmp.Global with
          | (fs4, some e) => (fs4, some (wrap e "unable to apply global"))
          | (fs4, none) =>
            match applyModules H fs4 p.Modules tmp.Module with
            | (fs5, some e) => (fs5, some (wrap e "unable to apply modules"))
            | (fs5, none) => (fs5, none)

end apply

/-! ## Vocabulary of the statements -/

namespace config

/-- The nine required scalar fields of the defaults, in the order region backend,
region provider, profile backend, profile provider, provider version, terraform
version, bucket, owner, project. -/
def Defaults.requiredScalars (d : Defaults) : List String :=
  [d.AWSRegionBackend, d.AWSRegionProvider, d.AWSProfileBackend, d.AWSProfileProvider,
   d.AWSProviderVersion, d.TerraformVersion, d.InfraBucket, d.Owner, d.Project]

/-- The overrides an account gives for the required scalar fields, in the same order. -/
def Account.requiredOverrides (a : Account) : List (Option String) :=
  [a.AWSRegionBackend, a.AWSRegionProvider, a.AWSProfileBackend, a.AWSProfileProvider,
   a.AWSProviderVersion, a.TerraformVersion, a.InfraBucket, a.Owner, a.Project]

/-- The overrides an environment gives for the required scalar fields, in the same order. -/
def Env.requiredOverrides (a : Env) : List (Option String) :=
  [a.AWSRegionBackend, a.AWSRegionProvider, a.AWSProfileBackend, a.AWSProfileProvider,
   a.AWSProviderVersion, a.TerraformVersion, a.InfraBucket, a.Owner, a.Project]

/-- The overrides a component gives for the required scalar fields, in the same order. -/
def Component.requiredOverrides (a : Component) : List (Option String) :=
  [a.AWSRegionBackend, a.AWSRegionProvider, a.AWSProfileBackend, a.AWSProfileProvider,
   a.AWSProviderVersion, a.TerraformVersion, a.InfraBucket, a.Owner, a.Project]

/-- Every map of the configuration holds each key once, as a Go map does. -/
abbrev Config.MapsDistinct (c : Config) : Prop :=
  (mapKeys c.Accounts).Nodup ∧ (mapKeys c.Envs).Nodup ∧ (mapKeys c.Modules).Nodup ∧
  (mapKeys c.Defaults.ExtraVars).Nodup ∧
  (∀ kv ∈ c.Accounts, (mapKeys kv.2.ExtraVars).Nodup) ∧
  (∀ kv ∈ c.Envs, (mapKeys kv.2.ExtraVars).Nodup ∧ (mapKeys kv.2.Components).Nodup ∧
    ∀ kc ∈ kv.2.Components, (mapKeys kc.2.ExtraVars).Nodup)

/-- No explicit override of a required scalar field is the empty string. -/
abbrev Config.OverridesNonEmpty (c : Config) : Prop :=
  (∀ kv ∈ c.Accounts, ∀ o ∈ kv.2.requiredOverrides, o ≠ some "") ∧
  (∀ kv ∈ c.Modules, kv.2.TerraformVersion ≠ some "") ∧
  (∀ kv ∈ c.Envs, (∀ o ∈ kv.2.requiredOverrides, o ≠ some "") ∧
    ∀ kc ∈ kv.2.Components, ∀ o ∈ kc.2.requiredOverrides, o ≠ some "")

/-- An account that overrides nothing. -/
def Account.unset : Account :=
  { AccountID := none, AWSProfileBackend := none, AWSProfileProvider := none,
    AWSProviderVersion := none, AWSRegionBackend := none, AWSRegionProvider := none,
    AWSRegions := none, ExtraVars := [], InfraBucket := none, Owner := none, Project := none,
    TerraformVersion := none }

/-- A component that overrides nothing. -/
def Component.unset : Component :=
  { AccountID := none, AWSProfileBackend := none, AWSProfileProvider := none,
    AWSProviderVersion := none, AWSRegionBackend := none, AWSRegionProvider := none,
    AWSRegions := none, ExtraVars := [], InfraBucket := none, ModuleSource := none,
    Owner := none, Project := none, TerraformVersion := none }

/-- An environment that overrides nothing and has no component. -/
def Env.unset : Env :=
  { AccountID := none, AWSProfileBackend := none, AWSProfileProvider := none,
    AWSProviderVersion := none, AWSRegionBackend := none, AWSRegionProvider := none,
    AWSRegions := none, Components := [], ExtraVars := [], InfraBucket := none, Owner := none,
    Project := none, TerraformVersion := none }

/-- The defaults of the sample configurations. -/
def sampleDefaults : Defaults :=
  { AccountID := none, AWSProfileBackend := "czi", AWSProfileProvider := "czi",
    AWSProviderVersion := "1.27.0", AWSRegionBackend := "us-west-2",
    AWSRegionProvider := "us-west-1", AWSRegions := some ["us-west-1"],
    ExtraVars := [("a", "1")], InfraBucket := "the-bucket", Owner := "infra",
    Project := "test-project", TerraformVersion := "0.11.0" }

/-- A sample configuration: two accounts, one environment with three components. -/
def sample : Config :=
  { Defaults := sampleDefaults
    Accounts :=
      [("prod", { Account.unset with AccountID := some 456, AWSRegionBackend := some "eu-west-1",
                                     ExtraVars := [("a", "2"), ("b", "3")] }),
       ("dev", { Account.unset with AccountID := some 123 })]
    Envs :=
      [("staging",
        { Env.unset with
          Owner := some "staging-team"
          AWSRegions := some ["us-west-2", "us-west-1"]
          ExtraVars := [("b", "3")]
          Components :=
            [("x", Component.unset),
             ("y", { Component.unset with Project := some "why", AWSRegions := some [],
                                          ExtraVars := [("a", "2"), ("c", "4")] }),
             ("z", Component.unset)] })]
    Modules := [("vpc", { TerraformVersion := none })] }

/-- A configuration whose only account sets no account identifier, while the defaults
carry one. -/
def sampleNoAccountID : Config :=
  { Defaults := { sampleDefaults with AccountID := some 999 }, Accounts := [("dev", Account.unset)], Envs := [], Modules := [] }

/-- A configuration with well-formed defaults whose only account overrides the backend
region with the empty string. -/
def sampleEmptyOverride : Config :=
  { Defaults := sampleDefaults
    Accounts := [("dev", { Account.unset with AWSRegionBackend := some "" })]
    Envs := [], Modules := [] }

/-- A configuration whose defaults leave the bucket unset and that has no other scope. -/
def sampleUnsetDefault : Config :=
  { Defaults := { sampleDefaults with InfraBucket := "" }, Accounts := [], Envs := [],
    Modules := [] }

end config

namespace plan

/-- The nine required scalar fields of an account node, in the order of
`config.Defaults.requiredScalars`. -/
def account.requiredScalars (p : account) : List String :=
  [p.AWSRegionBackend, p.AWSRegionProvider, p.AWSProfileBackend, p.AWSProfileProvider,
   p.AWSProviderVersion, p.TerraformVersion, p.InfraBucket, p.Owner, p.Project]

/-- The nine required scalar fields of an environment node, in the same order. -/
def Env.requiredScalars (p : plan.Env) : List String :=
  [p.AWSRegionBackend, p.AWSRegionProvider, p.AWSProfileBackend, p.AWSProfileProvider,
   p.AWSProviderVersion, p.TerraformVersion, p.InfraBucket, p.Owner, p.Project]

/-- The nine required scalar fields of a component node, in the same order. -/
def Component.requiredScalars (p : plan.Component) : List String :=
  [p.AWSRegionBackend, p.AWSRegionProvider, p.AWSProfileBackend, p.AWSProfileProvider,
   p.AWSProviderVersion, p.TerraformVersion, p.InfraBucket, p.Owner, p.Project]

/-- The mapping `R` is the key-by-key merge of the child mapping `C` over the parent
mapping `P`: its keys are those of `P` and of `C`, it agrees with `C` on the keys of
`C` and with `P` on the other keys. -/
def MergedOver (R P C : GoMap String) : Prop :=
  (∀ k, k ∈ mapKeys R ↔ k ∈ mapKeys P ∨ k ∈ mapKeys C) ∧
  (∀ k v, mapGet C k = some v → mapGet R k = some v) ∧
  (∀ k, k ∉ mapKeys C → mapGet R k = mapGet P k)

/-- Field-wise cascade of the specification: the explicit value of the child where it
sets one, the value of the parent otherwise. -/
def cascade (child : List (Option String)) (parent : List String) : List String :=
  List.zipWith (fun o d => o.getD d) child parent

end plan

namespace apply

/-- The empty target filesystem: only the working directory and the root are there. -/
def emptyFs : Fs := fun q => if q = "." ∨ q = "/" then some Node.dir else none

/-- A stand-in for the external transforms: a template renders to its own text, except
the template `bad`, which fails before writing anything; the formatter makes the text
end in a newline. -/
def sampleExternal : External Unit :=
  { execute := fun src _ => if src = "bad" then ("", some "template: bad") else (src, none)
    format := fun s => .ok (if strings.HasSuffix s "\n" then s else s ++ "\n") }

/-- A target filesystem that already holds a hand-written `backend.tf` and `NOTES`. -/
def sampleFs : Fs :=
  writeFile (writeFile emptyFs "NOTES" "keep me") "backend.tf" "a=1"

/-- The file store with `n` at `t`. -/
def setNode (fs : Fs) (t : String) (n : Option Node) : Fs :=
  fun q => if q = t then n else fs q

/-- What formatting makes of the node `o` at the path `t`, with the error it ends on. -/
def nodeFmt {σ : Type} (X : External σ) (t : String) (o : Option Node) :
    Option Node × Option String :=
  match o with
  | some (Node.file c) =>
    match X.format c with
    | .error e => (o, some (wrap e ("fmt hcl failed for " ++ t)))
    | .ok out => (some (Node.file out), none)
  | some Node.dir =>
    (o, some (wrap ("read " ++ t ++ ": is a directory") ("unable to read file " ++ t)))
  | none =>
    (o, some (wrap ("open " ++ t ++ ": file does not exist") ("unable to read file " ++ t)))

/-- What the first step of `applyFile`, the one chosen by the extension `ext` of the
entry, makes of the node `o` at the target `t` when the directory of `t` exists. -/
def nodeStep {σ : Type} (X : External σ) (subst : σ) (ext src t : String) (o : Option Node) :
    Option Node × Option String :=
  if ext = ".tmpl" then
    match o with
    | some Node.dir =>
      (o, some (wrap (wrap ("open " ++ t ++ ": is a directory") "unable to open file")
        "unable to apply template"))
    | _ =>
      (some (Node.file (X.execute src subst).1),
        (X.execute src subst).2.map (fun e => wrap e "unable to apply template"))
  else if ext = ".touch" then
    if o.isSome then (o, none) else (some (Node.file ""), none)
  else if ext = ".create" then
    if o.isSome then (o, none) else (some (Node.file src), none)
  else
    match o with
    | some Node.dir =>
      (o, some (wrap ("open " ++ t ++ ": is a directory") "unable to copy file"))
    | _ => (some (Node.file src), none)

/-- What `applyFile` makes of the node `o` at its target `t` when the directory of `t`
exists: the step chosen by the extension `ext` of the entry and then, for a target with
the extension `.tf`, the formatting. -/
def nodeApply {σ : Type} (X : External σ) (subst : σ) (ext src t : String) (o : Option Node) :
    Option Node × Option String :=
  let r := nodeStep X subst ext src t o
  match r.2 with
  | some e => (r.1, some e)
  | none =>
    if filepath.Ext t = ".tf" then
      ((nodeFmt X t r.1).1, (nodeFmt X t r.1).2.map (fun e => wrap e "unable to format HCL"))
    else (r.1, none)

/-- A stage of the orchestrator: a step on the file store that may end on an error. -/
abbrev Stage := Fs → Fs × Option String

/-- Stages run one after the other; the first error ends the run. -/
def seqStages : List Stage → Stage
  | [], fs => (fs, none)
  | s :: rest, fs =>
    match s fs with
    | (fs1, some e) => (fs1, some e)
    | (fs1, none) => seqStages rest fs1

/-- A stage whose error is wrapped with the message `msg`. -/
def named (msg : String) (s : Stage) : Stage :=
  fun fs => ((s fs).1, (s fs).2.map (fun e => wrap e msg))

/-- The stages of one component: its directory, its tree, then the module invocation
when the component has a module source. -/
def componentStages (H : Host) (componentBox : Box) (env : String)
    (kv : String × plan.Component) : List Stage :=
  named "unable to make directories for component"
      (fun fs => MkdirAll fs (rootPath ++ "/envs/" ++ env ++ "/" ++ kv.1)) ::
  named "unable to apply templates for component"
      (fun fs => applyTree H.toExternal fs componentBox
        (rootPath ++ "/envs/" ++ env ++ "/" ++ kv.1) (Subst.component kv.2)) ::
    match kv.2.ModuleSource with
    | some moduleSource =>
      [named "unable to apply module invocation"
        (fun fs => applyModuleInvocation H fs (rootPath ++ "/envs/" ++ env ++ "/" ++ kv.1)
          moduleSource H.moduleInvocation)]
    | none => []

/-- The stages of one environment: its directory, its tree, then the stages of each of
its components. -/
def envStages (H : Host) (envBox componentBox : Box) (kv : String × plan.Env) : List Stage :=
  named ("unable to make directory " ++ (rootPath ++ "/envs/" ++ kv.1))
      (fun fs => MkdirAll fs (rootPath ++ "/envs/" ++ kv.1)) ::
  named "unable to apply templates to env"
      (fun fs => applyTree H.toExternal fs envBox (rootPath ++ "/envs/" ++ kv.1)
        (Subst.env kv.2)) ::
    (kv.2.Components.map (componentStages H componentBox kv.1)).flatten

/-- The repository stage: the repository tree, then every custom plugin, then every
provider. -/
def repoStage (H : Host) (p : plan.Plan) (tmp : templates.T) : Stage :=
  named "unable to apply repo"
    (seqStages
      ((fun fs => applyTree H.toExternal fs tmp.Repo "" (Subst.plan p)) ::
        (p.Plugins.CustomPlugins ++ p.Plugins.TerraformProviders).map
          (fun kv => named ("Error applying plugin " ++ kv.1) (fun fs => H.install kv.2 fs kv.1))))

/-- The global stage: the global directory, then the global tree. -/
def globalStage (H : Host) (p : plan.Plan) (tmp : templates.T) : Stage :=
  named "unable to apply global"
    (seqStages
      [named ("unable to make directory " ++ (rootPath ++ "/global"))
        (fun fs => MkdirAll fs (rootPath ++ "/global")),
       fun fs => applyTree H.toExternal fs tmp.Global (rootPath ++ "/global")
        (Subst.component p.Global)])

/-- The account stage: the directory and the tree of each account. -/
def accountStage (H : Host) (p : plan.Plan) (tmp : templates.T) : Stage :=
  named "unable to apply accounts"
    (seqStages ((p.Accounts.map (fun kv =>
      [named "unable to make directories for accounts"
        (fun fs => MkdirAll fs (rootPath ++ "/accounts/" ++ kv.1)),
       named "unable to apply templates to account"
        (fun fs => applyTree H.toExternal fs tmp.Account (rootPath ++ "/accounts/" ++ kv.1)
          (Subst.account kv.2))])).flatten))

/-- The environment stage: the stages of each environment. -/
def envStage (H : Host) (p : plan.Plan) (tmp : templates.T) : Stage :=
  named "unable to apply envs"
    (seqStages ((p.Envs.map (envStages H tmp.Env tmp.Component)).flatten))

/-- The module stage: the directory and the tree of each module. -/
def moduleStage (H : Host) (p : plan.Plan) (tmp : templates.T) : Stage :=
  named "unable to apply modules"
    (seqStages ((p.Modules.map (fun kv =>
      [named ("unable to make path " ++ (rootPath ++ "/modules/" ++ kv.1))
        (fun fs => MkdirAll fs (rootPath ++ "/modules/" ++ kv.1)),
       named "unable to apply tree"
        (fun fs => applyTree H.toExternal fs tmp.Module (rootPath ++ "/modules/" ++ kv.1)
          (Subst.modulePlan kv.2))])).flatten))

/-- The order of the stages in `Apply`: repository, accounts, environments, global,
modules. -/
def stagesOfApply (H : Host) (p : plan.Plan) (tmp : templates.T) : List Stage :=
  [repoStage H p tmp, accountStage H p tmp, envStage H p tmp, globalStage H p tmp,
   moduleStage H p tmp]

/-- The order of the stages as the specification lists them: repository, global,
accounts, environments, modules. -/
def stagesOfSpec (H : Host) (p : plan.Plan) (tmp : templates.T) : List Stage :=
  [repoStage H p tmp, globalStage H p tmp, accountStage H p tmp, envStage H p tmp,
   moduleStage H p tmp]

/-- Stand-ins for the external functions.  A template renders to its own text, followed
for a module invocation by the module name, the source and the two name lists; the
template `bad` fails.  The formatter makes the text end in a newline.  Detection leaves
a forced `git::` address as it is and turns any other address into a `file://` URL below
the working directory; parsing fails on a control character and reads the scheme off
the front; the relative path climbs one level per element of the base. -/
def sampleHost : Host :=
  { execute := fun src subst =>
      if src = "bad" then ("", some "template: bad")
      else
        match subst with
        | Subst.moduleData d =>
          (src ++ " " ++ d.ModuleName ++ " " ++ d.ModuleSource ++ " " ++
            ",".intercalate d.Variables ++ " " ++ ",".intercalate d.Outputs, none)
        | _ => (src, none)
    format := fun s => .ok (if strings.HasSuffix s "\n" then s else s ++ "\n")
    versionString := .ok "0.1.0"
    install := fun _ fs _ => (fs, none)
    downloadAndParseModule := fun _ =>
      .ok { Variables := [⟨"b"⟩, ⟨"a"⟩], Outputs := [⟨"y"⟩, ⟨"x"⟩] }
    detect := fun src pwd =>
      if "git::".data <+: src.data then (src, none)
      else ("file://" ++ filepath.Join pwd src, none)
    parse := fun s =>
      if s.data.any (fun c => decide (c.toNat < 32)) then
        .error "net/url: invalid control character in URL"
      else
        .ok { Scheme := if "file:".data <+: s.data then "file"
                        else if "git::".data <+: s.data then "git" else "" }
    rel := fun base targ =>
      .ok ⟨filepath.joinSep
        ((filepath.splitSep base.data).map (fun _ => ['.', '.']) ++ [targ.data])⟩
    moduleInvocation := [("main.tf.tmpl", "main"), ("outputs.tf.tmpl", "outputs")] }

/-- What `filepath.Rel` hands back for the component directory and the module address:
the relative path, or the empty string when it reports an error. -/
def relativeAddress (H : Host) (path moduleAddress : String) : String :=
  match H.rel path moduleAddress with
  | .ok r => r
  | .error _ => ""

/-- Template boxes in which every template renders. -/
def sampleTemplates : templates.T :=
  { Repo := [("README.md", "repo")], Account := [("main.tf.tmpl", "account")],
    Env := [("main.tf.tmpl", "env")], Component := [("main.tf.tmpl", "component")],
    Global := [("main.tf.tmpl", "global")], Module := [("main.tf.tmpl", "module")] }

/-- Template boxes in which the account template fails. -/
def sampleTemplatesBadAccount : templates.T :=
  { sampleTemplates with Account := [("main.tf.tmpl", "bad")] }

end apply

/-! # Properties -/

/-! ## Go maps -/

theorem mapGet_mapSet_self {V : Type} (m : GoMap V) (k : String) (v : V) :
    mapGet (mapSet m k v) k = some v := by
  induction m with
  | nil => simp [mapSet, mapGet]
  | cons hd t ih =>
    obtain ⟨k1, v1⟩ := hd
    by_cases h : k1 = k
    · simp [mapSet, mapGet, h]
    · simp [mapSet, mapGet, h, ih]

theorem mapGet_mapSet_ne {V : Type} (m : GoMap V) (k k2 : String) (v : V) (hne : k ≠ k2) :
    mapGet (mapSet m k v) k2 = mapGet m k2 := by
  induction m with
  | nil => simp [mapSet, mapGet, hne]
  | cons hd t ih =>
    obtain ⟨k1, v1⟩ := hd
    by_cases h : k1 = k
    · subst h
      simp [mapSet, mapGet, hne]
    · by_cases h2 : k1 = k2
      · subst h2
        simp [mapSet, mapGet, h]
      · simp [mapSet, mapGet, h, h2, ih]

theorem mapGet_eq_none_iff {V : Type} (m : GoMap V) (k : String) :
    mapGet m k = none ↔ k ∉ mapKeys m := by
  induction m with
  | nil => simp [mapGet, mapKeys]
  | cons hd t ih =>
    obtain ⟨k1, v1⟩ := hd
    by_cases h : k1 = k
    · simp [mapGet, mapKeys, h]
    · have h2 : ¬ k = k1 := fun e => h e.symm
      simp only [mapGet, h, if_false, ih]
      simp [mapKeys, h2]

theorem mem_mapKeys_iff {V : Type} (m : GoMap V) (k : String) :
    k ∈ mapKeys m ↔ ∃ v, mapGet m k = some v := by
  rw [← not_iff_not, ← mapGet_eq_none_iff]
  cases mapGet m k <;> simp

theorem mem_of_mapGet {V : Type} (m : GoMap V) (k : String) (v : V) (h : mapGet m k = some v) :
    (k, v) ∈ m := by
  induction m with
  | nil => simp [mapGet] at h
  | cons hd t ih =>
    obtain ⟨k1, v1⟩ := hd
    by_cases hk : k1 = k
    · simp [mapGet, hk] at h
      simp [hk, h]
    · simp [mapGet, hk] at h
      exact List.mem_cons_of_mem _ (ih h)

theorem mapKeys_mapSet {V : Type} (m : GoMap V) (k : String) (v : V) :
    mapKeys (mapSet m k v) = if k ∈ mapKeys m then mapKeys m else mapKeys m ++ [k] := by
  induction m with
  | nil => simp [mapSet, mapKeys]
  | cons hd t ih =>
    obtain ⟨k1, v1⟩ := hd
    by_cases h : k1 = k
    · simp [mapSet, mapKeys, h]
    · have h2 : ¬ k = k1 := fun e => h e.symm
      simp only [mapKeys] at ih
      simp only [mapSet, h, if_false, mapKeys, List.map_cons, List.mem_cons, h2, false_or, ih]
      split <;> simp

theorem nodup_mapKeys_mapSet {V : Type} (m : GoMap V) (k : String) (v : V)
    (h : (mapKeys m).Nodup) : (mapKeys (mapSet m k v)).Nodup := by
  rw [mapKeys_mapSet]
  split
  · exact h
  · rename_i hk
    exact List.Nodup.append h (List.nodup_singleton k) (by simpa using hk)

/-- A loop that writes `f k v` for every entry `(k, v)` of a map into `acc`. -/
theorem mapGet_foldl_mapSet {A B : Type} (f : String → A → B) (l : GoMap A)
    (hl : (mapKeys l).Nodup) (acc : GoMap B) (k : String) :
    mapGet (l.foldl (fun m kv => mapSet m kv.1 (f kv.1 kv.2)) acc) k
      = ((mapGet l k).map (f k)).or (mapGet acc k) := by
  induction l generalizing acc with
  | nil => simp [mapGet]
  | cons hd t ih =>
    obtain ⟨k1, v1⟩ := hd
    have hnd : k1 ∉ mapKeys t ∧ (mapKeys t).Nodup := by simpa [mapKeys] using hl
    rw [List.foldl_cons, ih hnd.2]
    by_cases h : k1 = k
    · subst h
      have : mapGet t k1 = none := (mapGet_eq_none_iff t k1).2 hnd.1
      simp [mapGet, this, mapGet_mapSet_self]
    · simp [mapGet, h, mapGet_mapSet_ne _ _ _ _ h]

theorem nodup_mapKeys_foldl_mapSet {A B : Type} (f : String → A → B) (l : GoMap A)
    (acc : GoMap B) (h : (mapKeys acc).Nodup) :
    (mapKeys (l.foldl (fun m kv => mapSet m kv.1 (f kv.1 kv.2)) acc)).Nodup := by
  induction l generalizing acc with
  | nil => simpa using h
  | cons hd t ih => exact ih _ (nodup_mapKeys_mapSet _ _ _ h)

/-! ## The plan builder -/

namespace plan

theorem resolveRequired_eq_getD (d : String) (o : Option String) :
    resolveRequired d o = o.getD d := by
  cases o <;> rfl

theorem buildAccounts_get (c : config.Config) (h : (mapKeys c.Accounts).Nodup) :
    ∃ accounts, buildAccounts c = .ok accounts ∧
      ∀ name, mapGet accounts name = (mapGet c.Accounts name).map (accountPlanOf c name) := by
  refine ⟨_, rfl, fun name => ?_⟩
  rw [mapGet_foldl_mapSet (accountPlanOf c) _ h]
  simp [mapGet]

theorem buildEnvs_get (c : config.Config) (h : (mapKeys c.Envs).Nodup) :
    ∃ envs, buildEnvs c = .ok envs ∧
      ∀ name, mapGet envs name = (mapGet c.Envs name).map (envPlanOf c name) := by
  refine ⟨_, rfl, fun name => ?_⟩
  rw [mapGet_foldl_mapSet (envPlanOf c) _ h]
  simp [mapGet]

theorem buildModules_get (c : config.Config) (h : (mapKeys c.Modules).Nodup) :
    ∃ modules, buildModules c = .ok modules ∧
      ∀ name, mapGet modules name = (mapGet c.Modules name).map (fun m =>
        { DockerImageVersion := dockerImageVersion
          TerraformVersion := resolveRequired c.Defaults.TerraformVersion m.TerraformVersion }) := by
  refine ⟨_, rfl, fun name => ?_⟩
  rw [mapGet_foldl_mapSet (fun _ (m : config.Module) =>
    ({ DockerImageVersion := dockerImageVersion
       TerraformVersion := resolveRequired c.Defaults.TerraformVersion m.TerraformVersion } : Module))
    _ h]
  simp [mapGet]

theorem envPlanOf_components_get (c : config.Config) (e : String) (ec : config.Env)
    (h : (mapKeys ec.Components).Nodup) (cn : String) :
    mapGet (envPlanOf c e ec).Components cn
      = (mapGet ec.Components cn).map (componentPlanOf (envPlanHead c e ec) e ec.Components cn) := by
  show mapGet (ec.Components.foldl _ _) cn = _
  rw [mapGet_foldl_mapSet (componentPlanOf (envPlanHead c e ec) e ec.Components) _ h]
  simp [mapGet, envPlanHead]

theorem envPlanOf_requiredScalars (c : config.Config) (e : String) (ec : config.Env) :
    (envPlanOf c e ec).requiredScalars
      = cascade ec.requiredOverrides c.Defaults.requiredScalars := by
  simp [envPlanOf, envPlanHead, Env.requiredScalars, cascade, config.Env.requiredOverrides,
    config.Defaults.requiredScalars, resolveRequired_eq_getD]

theorem accountPlanOf_requiredScalars (c : config.Config) (n : String) (a : config.Account) :
    (accountPlanOf c n a).requiredScalars
      = cascade a.requiredOverrides c.Defaults.requiredScalars := by
  simp [accountPlanOf, account.requiredScalars, cascade, config.Account.requiredOverrides,
    config.Defaults.requiredScalars, resolveRequired_eq_getD]

theorem componentPlanOf_requiredScalars (c : config.Config) (e : String) (ec : config.Env)
    (cn : String) (cc : config.Component) :
    (componentPlanOf (envPlanHead c e ec) e ec.Components cn cc).requiredScalars
      = cascade cc.requiredOverrides (envPlanOf c e ec).requiredScalars := by
  simp [componentPlanOf, envPlanOf, envPlanHead, Env.requiredScalars, Component.requiredScalars,
    cascade, config.Component.requiredOverrides, resolveRequired_eq_getD]

/-- What `MapsDistinct` says about one environment. -/
theorem mapsDistinct_env (c : config.Config) (hwf : c.MapsDistinct) (e : String)
    (ec : config.Env) (h : mapGet c.Envs e = some ec) :
    (mapKeys ec.ExtraVars).Nodup ∧ (mapKeys ec.Components).Nodup ∧
      ∀ cn cc, mapGet ec.Components cn = some cc → (mapKeys cc.ExtraVars).Nodup := by
  obtain ⟨h1, h2, h3⟩ := hwf.2.2.2.2.2 (e, ec) (mem_of_mapGet _ _ _ h)
  exact ⟨h1, h2, fun cn cc hc => h3 (cn, cc) (mem_of_mapGet _ _ _ hc)⟩

/-- C1: on an account or environment node every required scalar field is the explicit
value of that scope where it sets one and the default otherwise; on a component node
it is the explicit value of the component where it sets one and otherwise the value
already resolved on its environment node. -/
theorem C1_scalar_override (c : config.Config) (hwf : c.MapsDistinct) :
    (∀ name conf, mapGet c.Accounts name = some conf →
      ∃ accounts p, buildAccounts c = .ok accounts ∧ mapGet accounts name = some p ∧
        p.requiredScalars = cascade conf.requiredOverrides c.Defaults.requiredScalars) ∧
    (∀ envName envConf, mapGet c.Envs envName = some envConf →
      ∃ envs ep, buildEnvs c = .ok envs ∧ mapGet envs envName = some ep ∧
        ep.requiredScalars = cascade envConf.requiredOverrides c.Defaults.requiredScalars ∧
        ∀ cn cc, mapGet envConf.Components cn = some cc →
          ∃ cp, mapGet ep.Components cn = some cp ∧
            cp.requiredScalars = cascade cc.requiredOverrides ep.requiredScalars) := by
  constructor
  · intro name conf h
    obtain ⟨accounts, hb, hg⟩ := buildAccounts_get c hwf.1
    exact ⟨accounts, accountPlanOf c name conf, hb, by rw [hg, h]; rfl,
      accountPlanOf_requiredScalars c name conf⟩
  · intro envName envConf h
    obtain ⟨envs, hb, hg⟩ := buildEnvs_get c hwf.2.1
    refine ⟨envs, envPlanOf c envName envConf, hb, by rw [hg, h]; rfl,
      envPlanOf_requiredScalars c envName envConf, ?_⟩
    intro cn cc hc
    refine ⟨componentPlanOf (envPlanHead c envName envConf) envName envConf.Components cn cc, ?_,
      componentPlanOf_requiredScalars c envName envConf cn cc⟩
    rw [envPlanOf_components_get c envName envConf (mapsDistinct_env c hwf _ _ h).2.1, hc]
    rfl

/-- C1 at the sample configuration: component `y` of `staging` sets its own project and
takes the owner that the environment overrides, not the default owner. -/
theorem C1_scalar_override_witness :
    config.sample.MapsDistinct ∧
    ∃ envs ep cp, buildEnvs config.sample = .ok envs ∧ mapGet envs "staging" = some ep ∧
      mapGet ep.Components "y" = some cp ∧ cp.Project = "why" ∧ cp.Owner = "staging-team" ∧
      cp.InfraBucket = "the-bucket" := by
  refine ⟨by decide, ?_⟩
  obtain ⟨envs, ep, hb, hg, _, hc⟩ :=
    (C1_scalar_override config.sample (by decide)).2 "staging" _ rfl
  obtain ⟨cp, hcp, hs⟩ := hc "y" _ rfl
  refine ⟨envs, ep, cp, hb, hg, hcp, ?_⟩
  cases hb
  cases hg
  cases hcp
  decide

theorem resolveExtraVars_get (P C : GoMap String) (hP : (mapKeys P).Nodup)
    (hC : (mapKeys C).Nodup) (k : String) :
    mapGet (resolveExtraVars P C) k = (mapGet C k).or (mapGet P k) := by
  have h1 := mapGet_foldl_mapSet (fun (_ : String) (v : String) => v) P hP [] k
  have h2 := mapGet_foldl_mapSet (fun (_ : String) (v : String) => v) C hC
    (P.foldl (fun r kv => mapSet r kv.1 kv.2) []) k
  simp only [Option.map_id_fun, id] at h1 h2
  show mapGet (C.foldl _ (P.foldl _ [])) k = _
  rw [h2, h1]
  simp [mapGet]

theorem nodup_resolveExtraVars (P C : GoMap String) :
    (mapKeys (resolveExtraVars P C)).Nodup :=
  nodup_mapKeys_foldl_mapSet (fun (_ : String) (v : String) => v) C _
    (nodup_mapKeys_foldl_mapSet (fun (_ : String) (v : String) => v) P [] List.nodup_nil)

theorem mergedOver_resolveExtraVars (P C : GoMap String) (hP : (mapKeys P).Nodup)
    (hC : (mapKeys C).Nodup) : MergedOver (resolveExtraVars P C) P C := by
  refine ⟨fun k => ?_, fun k v h => ?_, fun k h => ?_⟩
  · simp only [mem_mapKeys_iff, resolveExtraVars_get P C hP hC]
    cases mapGet C k <;> cases mapGet P k <;> simp
  · rw [resolveExtraVars_get P C hP hC, h]
    rfl
  · rw [resolveExtraVars_get P C hP hC, (mapGet_eq_none_iff C k).2 h]
    rfl

/-- C2: the resolved extra variables are the key-by-key merge of the child mapping over
the parent mapping, the child winning on a collision: for `resolveExtraVars` itself,
on account and environment nodes against the defaults, and on component nodes against
the mapping resolved on their environment node. -/
theorem C2_extra_vars_merge :
    (∀ P C : GoMap String, (mapKeys P).Nodup → (mapKeys C).Nodup →
      MergedOver (resolveExtraVars P C) P C) ∧
    resolveExtraVars [("a", "1")] [("a", "2"), ("b", "3")] = [("a", "2"), ("b", "3")] ∧
    (∀ c : config.Config, c.MapsDistinct →
      (∀ name conf, mapGet c.Accounts name = some conf →
        ∃ accounts p, buildAccounts c = .ok accounts ∧ mapGet accounts name = some p ∧
          MergedOver p.ExtraVars c.Defaults.ExtraVars conf.ExtraVars) ∧
      (∀ envName envConf, mapGet c.Envs envName = some envConf →
        ∃ envs ep, buildEnvs c = .ok envs ∧ mapGet envs envName = some ep ∧
          MergedOver ep.ExtraVars c.Defaults.ExtraVars envConf.ExtraVars ∧
          ∀ cn cc, mapGet envConf.Components cn = some cc →
            ∃ cp, mapGet ep.Components cn = some cp ∧
              MergedOver cp.ExtraVars ep.ExtraVars cc.ExtraVars)) := by
  refine ⟨mergedOver_resolveExtraVars, by decide, fun c hwf => ⟨?_, ?_⟩⟩
  · intro name conf h
    obtain ⟨accounts, hb, hg⟩ := buildAccounts_get c hwf.1
    exact ⟨accounts, accountPlanOf c name conf, hb, by rw [hg, h]; rfl,
      mergedOver_resolveExtraVars _ _ hwf.2.2.2.1
        (hwf.2.2.2.2.1 (name, conf) (mem_of_mapGet _ _ _ h))⟩
  · intro envName envConf h
    obtain ⟨envs, hb, hg⟩ := buildEnvs_get c hwf.2.1
    obtain ⟨hx, hcs, hcx⟩ := mapsDistinct_env c hwf _ _ h
    refine ⟨envs, envPlanOf c envName envConf, hb, by rw [hg, h]; rfl,
      mergedOver_resolveExtraVars _ _ hwf.2.2.2.1 hx, ?_⟩
    intro cn cc hc
    refine ⟨componentPlanOf (envPlanHead c envName envConf) envName envConf.Components cn cc, ?_,
      mergedOver_resolveExtraVars _ _ (nodup_resolveExtraVars _ _) (hcx cn cc hc)⟩
    rw [envPlanOf_components_get c envName envConf hcs, hc]
    rfl

/-- C2 at the sample configuration: component `y` of `staging` takes `a` from itself,
`b` from its environment and has exactly the keys `a`, `b`, `c`. -/
theorem C2_extra_vars_merge_witness :
    config.sample.MapsDistinct ∧
    ∃ envs ep cp, buildEnvs config.sample = .ok envs ∧ mapGet envs "staging" = some ep ∧
      mapGet ep.Components "y" = some cp ∧ MergedOver cp.ExtraVars ep.ExtraVars [("a", "2"), ("c", "4")] ∧
      ep.ExtraVars = [("a", "1"), ("b", "3")] ∧
      cp.ExtraVars = [("a", "2"), ("b", "3"), ("c", "4")] := by
  refine ⟨by decide, ?_⟩
  obtain ⟨envs, ep, hb, hg, _, hc⟩ :=
    (C2_extra_vars_merge.2.2 config.sample (by decide)).2 "staging" _ rfl
  obtain ⟨cp, hcp, hm⟩ := hc "y" _ rfl
  refine ⟨envs, ep, cp, hb, hg, hcp, hm, ?_⟩
  cases hb
  cases hg
  cases hcp
  decide

/-- C3: a region list that the child scope sets, the empty list included, is the
resolved list as it stands; a list the child does not set leaves the parent list.
This is so for `resolveStringArray`, on account and environment nodes against the
defaults, and on component nodes against the list resolved on their environment. -/
theorem C3_region_list_replace :
    (∀ (P : Option (List String)) (l : List String),
      resolveStringArray P (some l) = some l) ∧
    (∀ P : Option (List String), resolveStringArray P none = P) ∧
    resolveStringArray (some ["us-west-1"]) (some ["us-west-2", "us-west-1"])
      = some ["us-west-2", "us-west-1"] ∧
    (∀ c : config.Config, c.MapsDistinct →
      (∀ name conf, mapGet c.Accounts name = some conf →
        ∃ accounts p, buildAccounts c = .ok accounts ∧ mapGet accounts name = some p ∧
          p.AWSRegions = conf.AWSRegions.or c.Defaults.AWSRegions) ∧
      (∀ envName envConf, mapGet c.Envs envName = some envConf →
        ∃ envs ep, buildEnvs c = .ok envs ∧ mapGet envs envName = some ep ∧
          ep.AWSRegions = envConf.AWSRegions.or c.Defaults.AWSRegions ∧
          ∀ cn cc, mapGet envConf.Components cn = some cc →
            ∃ cp, mapGet ep.Components cn = some cp ∧
              cp.AWSRegions = cc.AWSRegions.or ep.AWSRegions)) := by
  have hor : ∀ P o : Option (List String), resolveStringArray P o = o.or P := by
    intro P o
    cases o <;> rfl
  refine ⟨fun _ _ => rfl, fun _ => rfl, by decide, fun c hwf => ⟨?_, ?_⟩⟩
  · intro name conf h
    obtain ⟨accounts, hb, hg⟩ := buildAccounts_get c hwf.1
    exact ⟨accounts, accountPlanOf c name conf, hb, by rw [hg, h]; rfl, hor _ _⟩
  · intro envName envConf h
    obtain ⟨envs, hb, hg⟩ := buildEnvs_get c hwf.2.1
    refine ⟨envs, envPlanOf c envName envConf, hb, by rw [hg, h]; rfl, hor _ _, ?_⟩
    intro cn cc hc
    refine ⟨componentPlanOf (envPlanHead c envName envConf) envName envConf.Components cn cc, ?_,
      hor _ _⟩
    rw [envPlanOf_components_get c envName envConf (mapsDistinct_env c hwf _ _ h).2.1, hc]
    rfl

/-- C3 at the sample configuration: `staging` replaces the default list by its own two
regions, component `y` sets the empty list and resolves to it, component `x` sets none
and resolves to the list of its environment. -/
theorem C3_region_list_replace_witness :
    config.sample.MapsDistinct ∧
    ∃ envs ep cy cx, buildEnvs config.sample = .ok envs ∧ mapGet envs "staging" = some ep ∧
      mapGet ep.Components "y" = some cy ∧ mapGet ep.Components "x" = some cx ∧
      ep.AWSRegions = some ["us-west-2", "us-west-1"] ∧ cy.AWSRegions = some [] ∧
      cx.AWSRegions = some ["us-west-2", "us-west-1"] := by
  refine ⟨by decide, ?_⟩
  obtain ⟨envs, ep, hb, hg, he, hc⟩ :=
    (C3_region_list_replace.2.2.2 config.sample (by decide)).2 "staging" _ rfl
  obtain ⟨cy, hcy, hy⟩ := hc "y" _ rfl
  obtain ⟨cx, hcx, hx⟩ := hc "x" _ rfl
  refine ⟨envs, ep, cy, cx, hb, hg, hcy, hcx, he, hy, ?_⟩
  rw [hx, he]
  rfl

theorem otherComponentNames_eq_filter (components : GoMap config.Component)
    (thisComponent : String) :
    otherComponentNames components thisComponent
      = (mapKeys components).filter (fun n => decide (n ≠ thisComponent)) := by
  have key : ∀ (l : GoMap config.Component) (acc : List String),
      l.foldl (fun r kv => if kv.1 ≠ thisComponent then r ++ [kv.1] else r) acc
        = acc ++ (mapKeys l).filter (fun n => decide (n ≠ thisComponent)) := by
    intro l
    induction l with
    | nil => intro acc; simp [mapKeys]
    | cons hd t ih =>
      intro acc
      rw [List.foldl_cons, ih]
      by_cases h : hd.1 = thisComponent
      · simp [mapKeys, h]
      · simp [mapKeys, h]
  simpa [otherComponentNames] using key components []

/-- C4: the `OtherComponents` list of a component holds the component names of its own
environment other than its own name: it does not hold the component itself, it holds
every other component of the environment once, and it holds no name that is not a
component of this environment (so none that only another environment has). -/
theorem C4_other_components (c : config.Config) (hwf : c.MapsDistinct) (envName : String)
    (envConf : config.Env) (h : mapGet c.Envs envName = some envConf) (cn : String)
    (cc : config.Component) (hc : mapGet envConf.Components cn = some cc) :
    ∃ envs ep cp, buildEnvs c = .ok envs ∧ mapGet envs envName = some ep ∧
      mapGet ep.Components cn = some cp ∧
      cn ∉ cp.OtherComponents ∧
      (∀ n, n ∈ cp.OtherComponents ↔ n ∈ mapKeys envConf.Components ∧ n ≠ cn) ∧
      cp.OtherComponents.Nodup ∧
      (∀ e2 ec2 n, mapGet c.Envs e2 = some ec2 → n ∈ mapKeys ec2.Components →
        n ∉ mapKeys envConf.Components → n ∉ cp.OtherComponents) := by
  obtain ⟨envs, hb, hg⟩ := buildEnvs_get c hwf.2.1
  have hcs := (mapsDistinct_env c hwf _ _ h).2.1
  have hmem : ∀ n, n ∈ otherComponentNames envConf.Components cn
      ↔ n ∈ mapKeys envConf.Components ∧ n ≠ cn := by
    intro n
    rw [otherComponentNames_eq_filter]
    simp
  refine ⟨envs, envPlanOf c envName envConf,
    componentPlanOf (envPlanHead c envName envConf) envName envConf.Components cn cc, hb,
    by rw [hg, h]; rfl, by rw [envPlanOf_components_get c envName envConf hcs, hc]; rfl,
    ?_, hmem, ?_, ?_⟩
  · intro hin
    exact ((hmem cn).1 hin).2 rfl
  · show (otherComponentNames envConf.Components cn).Nodup
    rw [otherComponentNames_eq_filter]
    exact hcs.filter _
  · intro e2 ec2 n _ _ hn hin
    exact hn ((hmem n).1 hin).1

/-- C4 at the sample configuration: the siblings of `y` among `x`, `y`, `z` are `x`
and `z`. -/
theorem C4_other_components_witness :
    config.sample.MapsDistinct ∧
    ∃ envs ep cp, buildEnvs config.sample = .ok envs ∧ mapGet envs "staging" = some ep ∧
      mapGet ep.Components "y" = some cp ∧ "y" ∉ cp.OtherComponents ∧
      "x" ∈ cp.OtherComponents ∧ "z" ∈ cp.OtherComponents := by
  refine ⟨by decide, ?_⟩
  obtain ⟨envs, ep, cp, hb, hg, hcp, hself, hmem, _, _⟩ :=
    C4_other_components config.sample (by decide) "staging" _ rfl "y" _ rfl
  exact ⟨envs, ep, cp, hb, hg, hcp, hself, (hmem "x").2 (by decide), (hmem "z").2 (by decide)⟩

theorem cascade_ne_empty (child : List (Option String)) (parent : List String)
    (hc : ∀ o ∈ child, o ≠ some "") (hp : ∀ s ∈ parent, s ≠ "") :
    ∀ s ∈ cascade child parent, s ≠ "" := by
  induction child generalizing parent with
  | nil => simp [cascade]
  | cons o t ih =>
    cases parent with
    | nil => simp [cascade]
    | cons d ds =>
      intro s hs
      simp only [cascade, List.zipWith_cons_cons, List.mem_cons] at hs
      rcases hs with hs | hs
      · subst hs
        cases o with
        | none => exact hp d (List.mem_cons_self _ _)
        | some v =>
          intro hv
          exact hc (some v) (List.mem_cons_self _ _) (by simpa using hv)
      · exact ih ds (fun o ho => hc o (List.mem_cons_of_mem _ ho))
          (fun x hx => hp x (List.mem_cons_of_mem _ hx)) s hs

theorem eval_ok (c : config.Config) (v : String) :
    ∃ accounts envs global modules, buildAccounts c = .ok accounts ∧ buildEnvs c = .ok envs ∧
      buildGlobal c = .ok global ∧ buildModules c = .ok modules ∧
      Eval (.ok v) c = .ok { Accounts := accounts, Envs := envs, Global := global,
                             Modules := modules,
                             Plugins := (({ CustomPlugins := [], TerraformProviders := [] } :
                               Plugins).SetCustomPluginsPlan c.Plugins.CustomPlugins
                               ).SetTerraformProvidersPlan c.Plugins.TerraformProviders,
                             Version := v } :=
  ⟨_, _, _, _, rfl, rfl, rfl, rfl, rfl⟩

/-- C8 as stated fails: with every default set, an account that overrides the backend
region with the empty string gets the empty string as its resolved backend region. -/
theorem C8_counterexample :
    (∀ s ∈ config.sampleEmptyOverride.Defaults.requiredScalars, s ≠ "") ∧
    ∃ p a, Eval (.ok "0.1.0") config.sampleEmptyOverride = .ok p ∧
      mapGet p.Accounts "dev" = some a ∧ a.AWSRegionBackend = "" := by
  refine ⟨by decide, _, _, rfl, rfl, rfl⟩

/-- C8, amended: when every required default is non-empty and no explicit override of a
required field is the empty string, every required scalar field of every node of the
built plan (global, accounts, environments, components, modules) is non-empty. -/
theorem C8_resolved_scalars_non_empty (c : config.Config) (hwf : c.MapsDistinct)
    (hd : ∀ s ∈ c.Defaults.requiredScalars, s ≠ "") (ho : c.OverridesNonEmpty) (v : String) :
    ∃ p, Eval (.ok v) c = .ok p ∧
      (∀ s ∈ p.Global.requiredScalars, s ≠ "") ∧
      (∀ name a, mapGet p.Accounts name = some a → ∀ s ∈ a.requiredScalars, s ≠ "") ∧
      (∀ name m, mapGet p.Modules name = some m → m.TerraformVersion ≠ "") ∧
      (∀ envName ep, mapGet p.Envs envName = some ep →
        (∀ s ∈ ep.requiredScalars, s ≠ "") ∧
        ∀ cn cp, mapGet ep.Components cn = some cp → ∀ s ∈ cp.requiredScalars, s ≠ "") := by
  obtain ⟨accounts, envs, global, modules, hba, hbe, hbg, hbm, hev⟩ := eval_ok c v
  obtain ⟨accounts2, hba2, hga⟩ := buildAccounts_get c hwf.1
  obtain ⟨envs2, hbe2, hge⟩ := buildEnvs_get c hwf.2.1
  obtain ⟨modules2, hbm2, hgm⟩ := buildModules_get c hwf.2.2.1
  rw [hba] at hba2
  rw [hbe] at hbe2
  rw [hbm] at hbm2
  cases hba2
  cases hbe2
  cases hbm2
  cases hbg
  refine ⟨_, hev, ?_, ?_, ?_, ?_⟩
  · exact hd
  · intro name a ha
    rw [hga] at ha
    cases hconf : mapGet c.Accounts name with
    | none => simp [hconf] at ha
    | some conf =>
      simp only [hconf, Option.map_some', Option.some.injEq] at ha
      subst ha
      rw [accountPlanOf_requiredScalars]
      exact cascade_ne_empty _ _ (ho.1 (name, conf) (mem_of_mapGet _ _ _ hconf)) hd
  · intro name m hm
    rw [hgm] at hm
    cases hconf : mapGet c.Modules name with
    | none => simp [hconf] at hm
    | some conf =>
      simp only [hconf, Option.map_some', Option.some.injEq] at hm
      subst hm
      have h1 := ho.2.1 (name, conf) (mem_of_mapGet _ _ _ hconf)
      have h2 : c.Defaults.TerraformVersion ≠ "" :=
        hd _ (by simp [config.Defaults.requiredScalars])
      show resolveRequired c.Defaults.TerraformVersion conf.TerraformVersion ≠ ""
      cases hv : conf.TerraformVersion with
      | none => exact h2
      | some x =>
        intro hx
        apply h1
        rw [hv]
        simpa [resolveRequired] using hx
  · intro envName ep hep
    rw [hge] at hep
    cases hconf : mapGet c.Envs envName with
    | none => simp [hconf] at hep
    | some envConf =>
      simp only [hconf, Option.map_some', Option.some.injEq] at hep
      subst hep
      obtain ⟨hoe, hoc⟩ := ho.2.2 (envName, envConf) (mem_of_mapGet _ _ _ hconf)
      have henv : ∀ s ∈ (envPlanOf c envName envConf).requiredScalars, s ≠ "" := by
        rw [envPlanOf_requiredScalars]
        exact cascade_ne_empty _ _ hoe hd
      refine ⟨henv, ?_⟩
      intro cn cp hcp
      rw [envPlanOf_components_get c envName envConf (mapsDistinct_env c hwf _ _ hconf).2.1] at hcp
      cases hcc : mapGet envConf.Components cn with
      | none => simp [hcc] at hcp
      | some cc =>
        simp only [hcc, Option.map_some', Option.some.injEq] at hcp
        subst hcp
        rw [componentPlanOf_requiredScalars]
        exact cascade_ne_empty _ _ (hoc (cn, cc) (mem_of_mapGet _ _ _ hcc)) henv

/-- C8, amended, at the sample configuration: the resolved fields of `prod` are set. -/
theorem C8_resolved_scalars_non_empty_witness :
    config.sample.MapsDistinct ∧ (∀ s ∈ config.sample.Defaults.requiredScalars, s ≠ "") ∧
    config.sample.OverridesNonEmpty ∧
    ∃ p a, Eval (.ok "0.1.0") config.sample = .ok p ∧ mapGet p.Accounts "prod" = some a ∧
      ∀ s ∈ a.requiredScalars, s ≠ "" := by
  refine ⟨by decide, by decide, by decide, ?_⟩
  obtain ⟨p, hp, _, ha, _⟩ :=
    C8_resolved_scalars_non_empty config.sample (by decide) (by decide) (by decide) "0.1.0"
  have hget : ∃ a, mapGet p.Accounts "prod" = some a := by
    cases hp
    exact ⟨_, rfl⟩
  obtain ⟨a, hga⟩ := hget
  exact ⟨p, a, hp, hga, ha "prod" a hga⟩

/-- C9 as stated fails: with the default bucket unset and no scope overriding it, the
build returns a plan, and the global node of that plan carries the empty bucket. -/
theorem C9_counterexample :
    config.sampleUnsetDefault.Defaults.InfraBucket = "" ∧
    ∃ p, Eval (.ok "0.1.0") config.sampleUnsetDefault = .ok p ∧ p.Global.InfraBucket = "" :=
  ⟨rfl, _, rfl, rfl⟩

/-- C9, amended: the four builders return no error on any configuration, so `Eval`
returns a plan whenever the version string is available and fails only when it is
not; the global node of the plan carries the required defaults as they are, an unset
one as the empty string. -/
theorem C9_build_reports_no_unset_field (c : config.Config) :
    (∃ accounts envs global modules, buildAccounts c = .ok accounts ∧
      buildEnvs c = .ok envs ∧ buildGlobal c = .ok global ∧ buildModules c = .ok modules) ∧
    (∀ v, ∃ p, Eval (.ok v) c = .ok p ∧ p.Version = v ∧
      p.Global.requiredScalars = c.Defaults.requiredScalars) ∧
    (∀ e, Eval (.error e) c = .error ("unable to parse fogg version: " ++ e)) := by
  refine ⟨⟨_, _, _, _, rfl, rfl, rfl, rfl⟩, fun v => ⟨_, rfl, rfl, rfl⟩, fun e => ?_⟩
  simp [Eval, String.append_assoc]

theorem resolveAccounts_get (accounts : GoMap config.Account)
    (h : (mapKeys accounts).Nodup) (k : String) :
    mapGet (resolveAccounts accounts) k = (mapGet accounts k).bind (fun a => a.AccountID) := by
  have key : ∀ (l : GoMap config.Account), (mapKeys l).Nodup → ∀ acc : GoMap Int,
      mapGet (l.foldl (fun a kv =>
          match kv.2.AccountID with
          | some id => mapSet a kv.1 id
          | none => a) acc) k
        = ((mapGet l k).bind (fun a => a.AccountID)).or (mapGet acc k) := by
    intro l
    induction l with
    | nil => intro _ acc; simp [mapGet]
    | cons hd t ih =>
      intro hl acc
      obtain ⟨k1, a1⟩ := hd
      have hnd : k1 ∉ mapKeys t ∧ (mapKeys t).Nodup := by simpa [mapKeys] using hl
      rw [List.foldl_cons, ih hnd.2]
      by_cases hk : k1 = k
      · subst hk
        have hnone : mapGet t k1 = none := (mapGet_eq_none_iff t k1).2 hnd.1
        cases hid : a1.AccountID with
        | none => simp [mapGet, hnone, hid]
        | some id => simp [mapGet, hnone, hid, mapGet_mapSet_self]
      · cases hid : a1.AccountID with
        | none => simp [mapGet, hk]
        | some id => simp [mapGet, hk, mapGet_mapSet_ne _ _ _ _ hk]
  have := key accounts h []
  simpa [resolveAccounts, mapGet] using this

/-- C10 as stated fails: an account that sets no identifier of its own has no entry in
`AllAccounts`, although it is a configured account (and although the defaults give it
a resolved identifier). -/
theorem C10_counterexample :
    mapKeys config.sampleNoAccountID.Accounts = ["dev"] ∧
    ∃ accounts p, buildAccounts config.sampleNoAccountID = .ok accounts ∧
      mapGet accounts "dev" = some p ∧ p.AccountID = some 999 ∧
      mapGet p.AllAccounts "dev" = none ∧ mapKeys p.AllAccounts = [] :=
  ⟨rfl, _, _, rfl, rfl, rfl, rfl, rfl⟩

/-- C10, amended: the `AllAccounts` mapping of every account node has an entry exactly
for the configured accounts that set an account identifier of their own, and maps each
of them to that identifier; it is the same mapping on every account node. -/
theorem C10_all_accounts (c : config.Config) (hA : (mapKeys c.Accounts).Nodup)
    (name : String) (conf : config.Account) (h : mapGet c.Accounts name = some conf) :
    ∃ accounts p, buildAccounts c = .ok accounts ∧ mapGet accounts name = some p ∧
      (∀ n id, mapGet p.AllAccounts n = some id ↔
        ∃ a, mapGet c.Accounts n = some a ∧ a.AccountID = some id) ∧
      (∀ n, n ∈ mapKeys p.AllAccounts ↔
        ∃ a id, mapGet c.Accounts n = some a ∧ a.AccountID = some id) ∧
      (∀ name2 q, mapGet accounts name2 = some q → q.AllAccounts = p.AllAccounts) := by
  obtain ⟨accounts, hb, hg⟩ := buildAccounts_get c hA
  have hget : ∀ n id, mapGet (resolveAccounts c.Accounts) n = some id ↔
      ∃ a, mapGet c.Accounts n = some a ∧ a.AccountID = some id := by
    intro n id
    rw [resolveAccounts_get c.Accounts hA]
    cases mapGet c.Accounts n <;> simp
  refine ⟨accounts, accountPlanOf c name conf, hb, by rw [hg, h]; rfl, hget, ?_, ?_⟩
  · intro n
    rw [mem_mapKeys_iff]
    constructor
    · rintro ⟨id, hid⟩
      obtain ⟨a, ha, hai⟩ := (hget n id).1 hid
      exact ⟨a, id, ha, hai⟩
    · rintro ⟨a, id, ha, hai⟩
      exact ⟨id, (hget n id).2 ⟨a, ha, hai⟩⟩
  · intro name2 q hq
    rw [hg] at hq
    cases hconf : mapGet c.Accounts name2 with
    | none => simp [hconf] at hq
    | some conf2 =>
      simp only [hconf, Option.map_some', Option.some.injEq] at hq
      subst hq
      rfl

/-- C10, amended, at the sample configuration: `prod` and `dev` both set an identifier
and both are entries of the mapping carried by `prod`. -/
theorem C10_all_accounts_witness :
    (mapKeys config.sample.Accounts).Nodup ∧
    ∃ accounts p, buildAccounts config.sample = .ok accounts ∧
      mapGet accounts "prod" = some p ∧ mapGet p.AllAccounts "prod" = some 456 ∧
      mapGet p.AllAccounts "dev" = some 123 := by
  refine ⟨by decide, ?_⟩
  obtain ⟨accounts, p, hb, hg, hget, _, _⟩ :=
    C10_all_accounts config.sample (by decide) "prod" _ rfl
  exact ⟨accounts, p, hb, hg, (hget "prod" 456).2 ⟨_, rfl, rfl⟩,
    (hget "dev" 123).2 ⟨_, rfl, rfl⟩⟩

end plan

/-! ## Paths -/

namespace filepath

theorem extAux_spec (rev : List Char) :
    ∀ (acc x : List Char), extAux rev acc = x → x ≠ [] →
      ∃ r1 r2, rev = r1 ++ '.' :: r2 ∧ x = '.' :: (r1.reverse ++ acc) ∧
        ∀ ch ∈ r1, ch ≠ '/' ∧ ch ≠ '.' := by
  induction rev with
  | nil =>
    intro acc x hx hne
    simp [extAux] at hx
    exact absurd hx hne
  | cons c rest ih =>
    intro acc x hx hne
    by_cases hs : c = '/'
    · simp [extAux, hs] at hx
      exact absurd hx hne
    · by_cases hd : c = '.'
      · subst hd
        refine ⟨[], rest, rfl, ?_, by simp⟩
        simpa [extAux] using hx.symm
      · have hx2 : extAux rest (c :: acc) = x := by simpa [extAux, hs, hd] using hx
        obtain ⟨r1, r2, h1, h2, h3⟩ := ih (c :: acc) x hx2 hne
        refine ⟨c :: r1, r2, by simp [h1], by simp [h2], ?_⟩
        intro ch hch
        rcases List.mem_cons.1 hch with h | h
        · subst h
          exact ⟨hs, hd⟩
        · exact h3 ch h

theorem extAux_append (r1 r2 acc : List Char) (h : ∀ ch ∈ r1, ch ≠ '/' ∧ ch ≠ '.') :
    extAux (r1 ++ '.' :: r2) acc = '.' :: (r1.reverse ++ acc) := by
  induction r1 generalizing acc with
  | nil => simp [extAux]
  | cons c t ih =>
    have hc := h c (List.mem_cons_self _ _)
    have ht : ∀ ch ∈ t, ch ≠ '/' ∧ ch ≠ '.' := fun ch hch => h ch (List.mem_cons_of_mem _ hch)
    simp [extAux, hc.1, hc.2, ih (c :: acc) ht]

/-- A non-empty extension is a trailing piece of the path: a dot followed by bytes that
are neither dots nor separators. -/
theorem Ext_spec (path e : String) (he : Ext path = e) (hne : e ≠ "") :
    ∃ pre s, path.data = pre ++ '.' :: s ∧ e.data = '.' :: s ∧
      ∀ ch ∈ s, ch ≠ '/' ∧ ch ≠ '.' := by
  have hdata : extAux path.data.reverse [] = e.data := by
    rw [← he]
    rfl
  have hne2 : e.data ≠ [] := by
    intro h
    apply hne
    exact String.ext h
  obtain ⟨r1, r2, h1, h2, h3⟩ := extAux_spec _ _ _ hdata hne2
  refine ⟨r2.reverse, r1.reverse, ?_, by simpa using h2, ?_⟩
  · have := congrArg List.reverse h1
    simpa using this
  · intro ch hch
    exact h3 ch (List.mem_reverse.1 hch)

theorem Ext_of_suffix (p : String) (pre s : List Char) (hp : p.data = pre ++ '.' :: s)
    (hs : ∀ ch ∈ s, ch ≠ '/' ∧ ch ≠ '.') : Ext p = ⟨'.' :: s⟩ := by
  have h := extAux_append s.reverse pre.reverse []
    (fun ch hch => hs ch (List.mem_reverse.1 hch))
  apply String.ext
  show extAux p.data.reverse [] = '.' :: s
  rw [hp]
  simpa using h

theorem splitSep_noSep (ys : List Char) (h : ∀ ch ∈ ys, ch ≠ '/') : splitSep ys = [ys] := by
  induction ys with
  | nil => rfl
  | cons c t ih =>
    have hc := h c (List.mem_cons_self _ _)
    simp [splitSep, hc, ih (fun ch hch => h ch (List.mem_cons_of_mem _ hch))]

theorem splitSep_append (xs ys : List Char) (h : ∀ ch ∈ ys, ch ≠ '/') :
    ∃ init lst, splitSep (xs ++ ys) = init ++ [lst ++ ys] := by
  induction xs with
  | nil => exact ⟨[], [], by simpa using splitSep_noSep ys h⟩
  | cons c t ih =>
    obtain ⟨init, lst, hsp⟩ := ih
    by_cases hc : c = '/'
    · exact ⟨[] :: init, lst, by simp [splitSep, hc, hsp]⟩
    · cases init with
      | nil => exact ⟨[], c :: lst, by simp [splitSep, hc, hsp]⟩
      | cons i is => exact ⟨(c :: i) :: is, lst, by simp [splitSep, hc, hsp]⟩

theorem joinSep_append_singleton (xs : List (List Char)) (c : List Char) :
    ∃ q, joinSep (xs ++ [c]) = q ++ c := by
  induction xs with
  | nil => exact ⟨[], rfl⟩
  | cons x t ih =>
    obtain ⟨q, hq⟩ := ih
    cases t with
    | nil => exact ⟨x ++ ['/'], by simp [joinSep]⟩
    | cons y t2 =>
      refine ⟨x ++ '/' :: q, ?_⟩
      have : joinSep (x :: y :: t2 ++ [c]) = x ++ '/' :: joinSep (y :: t2 ++ [c]) := rfl
      rw [this, hq]
      simp

theorem cleanStep_regular (rooted : Bool) (st : List (List Char) × Nat) (lst s : List Char)
    (hne : s ≠ []) (hs : ∀ ch ∈ s, ch ≠ '/' ∧ ch ≠ '.') :
    cleanStep rooted st (lst ++ '.' :: s) = (st.1 ++ [lst ++ '.' :: s], st.2) := by
  obtain ⟨a, t, rfl⟩ := List.exists_cons_of_ne_nil hne
  have ha := (hs a (List.mem_cons_self _ _)).2
  have h1 : lst ++ '.' :: a :: t ≠ [] := by simp
  have h2 : lst ++ '.' :: a :: t ≠ ['.'] := by
    cases lst with
    | nil => simp
    | cons b l => cases l <;> simp
  have h3 : lst ++ '.' :: a :: t ≠ ['.', '.'] := by
    cases lst with
    | nil => simp [ha]
    | cons b l =>
      cases l with
      | nil => simp
      | cons b2 l2 => cases l2 <;> simp
  simp [cleanStep, h1, h2, h3]

/-- `Clean` keeps a final element that ends in a proper extension. -/
theorem Clean_suffix (p : String) (pre s : List Char) (hp : p.data = pre ++ '.' :: s)
    (hne : s ≠ []) (hs : ∀ ch ∈ s, ch ≠ '/' ∧ ch ≠ '.') :
    ∃ q, (Clean p).data = q ++ '.' :: s := by
  have hpne : p ≠ "" := by
    intro h
    rw [h] at hp
    simp at hp
  have hsep : ∀ ch ∈ '.' :: s, ch ≠ '/' := by
    intro ch hch
    rcases List.mem_cons.1 hch with h | h
    · subst h
      decide
    · exact (hs ch h).1
  obtain ⟨init, lst, hsp⟩ := splitSep_append pre ('.' :: s) hsep
  have hout : ∀ rooted : Bool, ∃ st : List (List Char),
      ((splitSep p.data).foldl (cleanStep rooted) ([], 0)).1 = st ++ [lst ++ '.' :: s] := by
    intro rooted
    rw [hp, hsp, List.foldl_append]
    simp only [List.foldl_cons, List.foldl_nil]
    rw [cleanStep_regular rooted _ lst s hne hs]
    exact ⟨_, rfl⟩
  unfold Clean
  rw [if_neg hpne]
  simp only
  split
  · rename_i hr
    obtain ⟨st, hst⟩ := hout (decide (p.data.head? = some '/'))
    obtain ⟨q, hq⟩ := joinSep_append_singleton st (lst ++ '.' :: s)
    rw [hst, hq]
    exact ⟨'/' :: (q ++ lst), by simp⟩
  · obtain ⟨st, hst⟩ := hout (decide (p.data.head? = some '/'))
    obtain ⟨q, hq⟩ := joinSep_append_singleton st (lst ++ '.' :: s)
    rw [hst, hq]
    rw [if_neg (by simp)]
    exact ⟨q ++ lst, by simp⟩

/-- `Join` keeps the extension of its last argument when that extension is proper. -/
theorem Join_suffix (a b : String) (pre s : List Char) (hb : b.data = pre ++ '.' :: s)
    (hne : s ≠ []) (hs : ∀ ch ∈ s, ch ≠ '/' ∧ ch ≠ '.') :
    ∃ q, (Join a b).data = q ++ '.' :: s := by
  have hbne : b ≠ "" := by
    intro h
    rw [h] at hb
    simp at hb
  unfold Join
  by_cases ha : a = ""
  · simp only [ha, ne_eq, not_true_eq_false, if_false, hbne, not_false_eq_true, if_true]
    exact Clean_suffix b pre s hb hne hs
  · simp only [ne_eq, ha, not_false_eq_true, if_true]
    exact Clean_suffix (a ++ "/" ++ b) (a.data ++ '/' :: pre) s
      (by simp [String.data_append, hb]) hne hs

end filepath

/-! ## The template engine -/

namespace apply

open filepath

theorem getTargetPath_marker (base path : String)
    (h : Ext path = ".tmpl" ∨ Ext path = ".touch" ∨ Ext path = ".create") :
    Join base path = getTargetPath base path ++ Ext path := by
  have hne : Ext path ≠ "" := by
    rcases h with h | h | h <;> rw [h] <;> decide
  obtain ⟨pre, s, hp, he, hs⟩ := Ext_spec path _ rfl hne
  have hsne : s ≠ [] := by
    intro hnil
    rw [hnil] at he
    rcases h with h | h | h <;> rw [h] at he <;> exact absurd he (by decide)
  obtain ⟨q, hq⟩ := Join_suffix base path pre s hp hsne hs
  have hExt : Ext (Join base path) = Ext path := by
    rw [Ext_of_suffix (Join base path) q s hq hs]
    exact String.ext he.symm
  have hq2 : (Join base path).data = q ++ (Ext path).data := by rw [hq, he]
  have hsuf : strings.HasSuffix (Join base path) (Ext path) = true := by
    simp [strings.HasSuffix, hq2]
  have htake : (Join base path).data.take
      ((Join base path).data.length - (Ext path).data.length) = q := by
    rw [hq2]
    exact List.take_left' (by simp)
  have htarget : getTargetPath base path = ⟨q⟩ := by
    simp only [getTargetPath, if_pos h, removeExtension, hExt, strings.TrimSuffix, hsuf,
      if_true, htake]
  rw [htarget]
  exact String.ext (by simp [hq2, String.data_append])

/-- C6: `getTargetPath` returns the join of the base directory and the entry path
without the final extension when that extension is one of the three markers, so that
the join is the result followed by the marker, and the join itself when it is not. -/
theorem C6_getTargetPath (basePath path : String) :
    ((Ext path = ".tmpl" ∨ Ext path = ".touch" ∨ Ext path = ".create") →
      Join basePath path = getTargetPath basePath path ++ Ext path) ∧
    (¬ (Ext path = ".tmpl" ∨ Ext path = ".touch" ∨ Ext path = ".create") →
      getTargetPath basePath path = Join basePath path) ∧
    getTargetPath "terraform/global" "main.tf.tmpl" = "terraform/global/main.tf" ∧
    getTargetPath "terraform/global" "backend.tf.touch" = "terraform/global/backend.tf" ∧
    getTargetPath "terraform/global" "README.md" = "terraform/global/README.md" := by
  refine ⟨getTargetPath_marker basePath path, fun h => ?_, by decide, by decide, by decide⟩
  simp only [getTargetPath, if_neg h]

/-- C6 at a seed entry in a sub-directory of the box. -/
theorem C6_getTargetPath_witness :
    Ext "scripts/update.sh.create" = ".create" ∧
    Join "terraform/envs/prod" "scripts/update.sh.create"
      = getTargetPath "terraform/envs/prod" "scripts/update.sh.create" ++ ".create" ∧
    getTargetPath "terraform/envs/prod" "scripts/update.sh.create"
      = "terraform/envs/prod/scripts/update.sh" :=
  ⟨by decide,
   (C6_getTargetPath "terraform/envs/prod" "scripts/update.sh.create").1 (Or.inr (Or.inr (by decide))),
   by decide⟩

/-! ### The file store -/

theorem writeFile_eq_setNode (fs : Fs) (t c : String) :
    writeFile fs t c = setNode fs t (some (Node.file c)) := rfl

theorem setNode_same (fs : Fs) (t : String) (n : Option Node) : setNode fs t n t = n := by
  simp [setNode]

theorem setNode_other (fs : Fs) (t q : String) (n : Option Node) (h : q ≠ t) :
    setNode fs t n q = fs q := by
  simp [setNode, h]

theorem setNode_setNode (fs : Fs) (t : String) (a b : Option Node) :
    setNode (setNode fs t a) t b = setNode fs t b := by
  funext q
  by_cases h : q = t <;> simp [setNode, h]

theorem setNode_self (fs : Fs) (t : String) : setNode fs t (fs t) = fs := by
  funext q
  by_cases h : q = t <;> simp [setNode, h]

theorem setNode_comm (fs : Fs) (t u : String) (a b : Option Node) (h : t ≠ u) :
    setNode (setNode fs t a) u b = setNode (setNode fs u b) t a := by
  funext q
  by_cases h1 : q = t
  · subst h1
    have hq : q ≠ u := h
    simp [setNode, hq]
  · by_cases h2 : q = u
    · subst h2
      simp [setNode, h1]
    · simp [setNode, h1, h2]

/-- `Mkdir` leaves what is there. -/
theorem Mkdir_keeps (fs : Fs) (p q : String) (n : Node) (h : fs q = some n) :
    (Mkdir fs p).1 q = some n := by
  unfold Mkdir
  cases hp : fs p with
  | some m => simpa using h
  | none =>
    simp only
    split
    · have hq : q ≠ p := by
        intro e
        rw [e, hp] at h
        exact absurd h (by simp)
      simpa [hq] using h
    · exact h

theorem mkdirAllAux_keeps (ps : List String) (fs : Fs) (q : String) (n : Node)
    (h : fs q = some n) : (mkdirAllAux fs ps).1 q = some n := by
  induction ps with
  | nil => exact h
  | cons p rest ih =>
    unfold mkdirAllAux
    cases hp : fs p with
    | some m =>
      cases m with
      | dir => exact h
      | file c => exact h
    | none =>
      simp only
      cases hr : mkdirAllAux fs rest with
      | mk f e =>
        rw [hr] at ih
        cases e with
        | some err => exact ih
        | none => exact Mkdir_keeps f p q n ih

/-- `MkdirAll` leaves what is there. -/
theorem MkdirAll_keeps (fs : Fs) (path q : String) (n : Node) (h : fs q = some n) :
    (MkdirAll fs path).1 q = some n :=
  mkdirAllAux_keeps _ fs q n h

/-- `MkdirAll` does nothing when the directory exists. -/
theorem MkdirAll_of_dir (fs : Fs) (path : String) (h : fs (Clean path) = some Node.dir) :
    MkdirAll fs path = (fs, none) := by
  simp [MkdirAll, mkdirAllAux, h]

theorem Create_keeps (fs : Fs) (t q : String) (n : Node) (hq : q ≠ t) (h : fs q = some n) :
    (Create fs t).1 q = some n := by
  unfold Create
  cases ht : fs t with
  | some m =>
    cases m with
    | dir => exact h
    | file c => simpa [writeFile, hq] using h
  | none =>
    simp only
    split
    · simpa [writeFile, hq] using h
    · exact h

/-- `Create` leaves a directory where it is. -/
theorem Create_keeps_dir (fs : Fs) (t q : String) (h : fs q = some Node.dir) :
    (Create fs t).1 q = some Node.dir := by
  by_cases hq : q = t
  · subst hq
    simp [Create, h]
  · exact Create_keeps fs t q _ hq h

theorem WriteReader_keeps (fs : Fs) (t c q : String) (n : Node) (hq : q ≠ t)
    (h : fs q = some n) : (WriteReader fs t c).1 q = some n := by
  unfold WriteReader
  simp only
  have h1 : (if (Split t).1 ≠ "" then MkdirAll fs (Split t).1 else (fs, none)).1 q = some n := by
    split
    · exact MkdirAll_keeps fs _ q n h
    · exact h
  cases hm : (if (Split t).1 ≠ "" then MkdirAll fs (Split t).1 else (fs, none)) with
  | mk f e =>
    rw [hm] at h1
    cases e with
    | some err => exact h1
    | none =>
      simp only
      have h2 := Create_keeps f t q n hq h1
      cases hc : Create f t with
      | mk f2 e2 =>
        rw [hc] at h2
        cases e2 with
        | some err => exact h2
        | none => simpa [writeFile, hq] using h2

/-- `WriteReader` of the content that a file already has leaves that file, whether it
succeeds or not. -/
theorem WriteReader_same_file (fs : Fs) (t c : String) (h : fs t = some (Node.file c)) :
    (WriteReader fs t c).1 t = some (Node.file c) := by
  unfold WriteReader
  simp only
  have h1 : (if (Split t).1 ≠ "" then MkdirAll fs (Split t).1 else (fs, none)).1 t
      = some (Node.file c) := by
    split
    · exact MkdirAll_keeps fs _ t _ h
    · exact h
  cases hm : (if (Split t).1 ≠ "" then MkdirAll fs (Split t).1 else (fs, none)) with
  | mk f e =>
    rw [hm] at h1
    cases e with
    | some err => exact h1
    | none =>
      simp only at h1 ⊢
      simp [Create, h1, writeFile]

/-- `WriteReader` that succeeds leaves the content at the path. -/
theorem WriteReader_ok (fs : Fs) (t c : String) (h : (WriteReader fs t c).2 = none) :
    (WriteReader fs t c).1 t = some (Node.file c) := by
  unfold WriteReader at h ⊢
  simp only at h ⊢
  cases hm : (if (Split t).1 ≠ "" then MkdirAll fs (Split t).1 else (fs, none)) with
  | mk f e =>
    rw [hm] at h
    cases e with
    | some err => simp at h
    | none =>
      simp only at h ⊢
      cases hc : Create f t with
      | mk f2 e2 =>
        rw [hc] at h
        cases e2 with
        | some err => simp at h
        | none => simp [writeFile]

/-- `Create` next to an existing directory, on the node at the path. -/
theorem Create_flat (fs : Fs) (t : String) (hp : fs (Dir t) = some Node.dir) :
    Create fs t =
      (match fs t with
       | some Node.dir => (fs, some ("open " ++ t ++ ": is a directory"))
       | _ => (setNode fs t (some (Node.file "")), none)) := by
  unfold Create
  cases ht : fs t with
  | some m => cases m <;> rfl
  | none => simp [hp, writeFile_eq_setNode]

/-- `WriteReader` next to an existing directory, on the node at the path. -/
theorem WriteReader_flat (fs : Fs) (t c : String) (hp : fs (Dir t) = some Node.dir) :
    WriteReader fs t c =
      (match fs t with
       | some Node.dir => (fs, some ("open " ++ t ++ ": is a directory"))
       | _ => (setNode fs t (some (Node.file c)), none)) := by
  have hm : (if (Split t).1 ≠ "" then MkdirAll fs (Split t).1 else (fs, none)) = (fs, none) := by
    split
    · exact MkdirAll_of_dir fs _ hp
    · rfl
  unfold WriteReader
  simp only [hm, Create_flat fs t hp]
  cases ht : fs t with
  | some m =>
    cases m with
    | dir => rfl
    | file c0 => simp [writeFile_eq_setNode, setNode_setNode]
  | none => simp [writeFile_eq_setNode, setNode_setNode]

/-! ### One file of the box -/

theorem touchFile_keeps (fs : Fs) (t q : String) (n : Node) (hq : q ≠ t) (h : fs q = some n) :
    (touchFile fs t).1 q = some n := by
  unfold touchFile
  split
  · exact h
  · have h2 := Create_keeps fs t q n hq h
    cases hc : Create fs t with
    | mk f e =>
      rw [hc] at h2
      cases e <;> exact h2

theorem createFile_keeps (fs : Fs) (t src q : String) (n : Node) (hq : q ≠ t)
    (h : fs q = some n) : (createFile fs t src).1 q = some n := by
  unfold createFile
  split
  · exact h
  · have h2 := WriteReader_keeps fs t src q n hq h
    cases hc : WriteReader fs t src with
    | mk f e =>
      rw [hc] at h2
      cases e <;> exact h2

theorem applyTemplate_keeps {σ : Type} (X : External σ) (src : String) (fs : Fs) (t : String)
    (subst : σ) (q : String) (n : Node) (hq : q ≠ t) (h : fs q = some n) :
    (applyTemplate X src fs t subst).1 q = some n := by
  unfold applyTemplate
  have h2 := Create_keeps fs t q n hq h
  cases hc : Create fs t with
  | mk f e =>
    rw [hc] at h2
    cases e with
    | some err => exact h2
    | none => simpa [writeFile, hq] using h2

theorem fmtHcl_keeps {σ : Type} (X : External σ) (fs : Fs) (t q : String) (n : Node)
    (hq : q ≠ t) (h : fs q = some n) : (fmtHcl X fs t).1 q = some n := by
  unfold fmtHcl
  cases ReadFile fs t with
  | error e => exact h
  | ok input =>
    simp only
    cases X.format input with
    | error e => exact h
    | ok out => exact WriteReader_keeps fs t out q n hq h

/-- What is at a path other than the target of an entry is still there after the
entry. -/
theorem applyFile_keeps {σ : Type} (X : External σ) (dest : Fs) (base : String) (subst : σ)
    (path src q : String) (n : Node) (hq : q ≠ getTargetPath base path) (h : dest q = some n) :
    (applyFile X dest base subst path src).1 q = some n := by
  have key : ∀ r : Fs × Option String, r.1 q = some n →
      (match r.2 with
        | some e => (r.1, some e)
        | none =>
          if Ext (getTargetPath base path) = ".tf" then
            ((fmtHcl X r.1 (getTargetPath base path)).1,
              (fmtHcl X r.1 (getTargetPath base path)).2.map
                (fun e => wrap e "unable to format HCL"))
          else (r.1, none)).1 q = some n := by
    intro r hr
    cases r.2 with
    | some e => exact hr
    | none =>
      simp only
      split
      · exact fmtHcl_keeps X r.1 _ q n hq hr
      · exact hr
  apply key
  simp only
  split
  · exact applyTemplate_keeps X src dest _ subst q n hq h
  · split
    · exact touchFile_keeps dest _ q n hq h
    · split
      · exact createFile_keeps dest _ src q n hq h
      · exact WriteReader_keeps dest _ src q n hq h

theorem nodeStep_dir {σ : Type} (X : External σ) (subst : σ) (ext src t : String) :
    (nodeStep X subst ext src t (some Node.dir)).1 = some Node.dir := by
  unfold nodeStep
  split
  · rfl
  · split
    · rfl
    · split <;> rfl

theorem nodeApply_dir {σ : Type} (X : External σ) (subst : σ) (ext src t : String) :
    (nodeApply X subst ext src t (some Node.dir)).1 = some Node.dir := by
  unfold nodeApply
  simp only
  cases (nodeStep X subst ext src t (some Node.dir)).2 with
  | some e => exact nodeStep_dir X subst ext src t
  | none =>
    simp only [nodeStep_dir]
    split
    · rfl
    · rfl

theorem fmtHcl_flat {σ : Type} (X : External σ) (fs : Fs) (t : String)
    (hp : fs (Dir t) = some Node.dir) :
    fmtHcl X fs t = (setNode fs t (nodeFmt X t (fs t)).1, (nodeFmt X t (fs t)).2) := by
  unfold fmtHcl ReadFile nodeFmt
  cases ht : fs t with
  | none =>
    simp only
    rw [← ht, setNode_self]
  | some m =>
    cases m with
    | dir =>
      simp only
      rw [← ht, setNode_self]
    | file c =>
      simp only
      cases X.format c with
      | error e =>
        simp only
        rw [← ht, setNode_self]
      | ok out =>
        simp only [WriteReader_flat fs t out hp, ht]

theorem step_flat {σ : Type} (X : External σ) (dest : Fs) (subst : σ) (ext src t : String)
    (hp : dest (Dir t) = some Node.dir) :
    (if ext = ".tmpl" then
      ((applyTemplate X src dest t subst).1,
        (applyTemplate X src dest t subst).2.map (fun e => wrap e "unable to apply template"))
    else if ext = ".touch" then
      ((touchFile dest t).1,
        (touchFile dest t).2.map (fun e => wrap e ("unable to touch file " ++ t)))
    else if ext = ".create" then
      ((createFile dest t src).1,
        (createFile dest t src).2.map (fun e => wrap e ("unable to create file " ++ t)))
    else
      ((WriteReader dest t src).1,
        (WriteReader dest t src).2.map (fun e => wrap e "unable to copy file")))
      = (setNode dest t (nodeStep X subst ext src t (dest t)).1,
          (nodeStep X subst ext src t (dest t)).2) := by
  unfold nodeStep
  by_cases h1 : ext = ".tmpl"
  · simp only [if_pos h1, applyTemplate, Create_flat dest t hp]
    cases ht : dest t with
    | none => simp [writeFile_eq_setNode, setNode_setNode]
    | some m =>
      cases m with
      | dir =>
        simp only [Option.map_some']
        rw [← ht, setNode_self]
      | file c => simp [writeFile_eq_setNode, setNode_setNode]
  · simp only [if_neg h1]
    by_cases h2 : ext = ".touch"
    · simp only [if_pos h2, touchFile, Stat, Create_flat dest t hp]
      cases ht : dest t with
      | none => simp
      | some m =>
        simp only [Option.isSome_some, if_true, Option.map_none']
        rw [← ht, setNode_self]
    · simp only [if_neg h2]
      by_cases h3 : ext = ".create"
      · simp only [if_pos h3, createFile, Stat, WriteReader_flat dest t src hp]
        cases ht : dest t with
        | none => simp
        | some m =>
          simp only [Option.isSome_some, if_true, Option.map_none']
          rw [← ht, setNode_self]
      · simp only [if_neg h3, WriteReader_flat dest t src hp]
        cases ht : dest t with
        | none => simp
        | some m =>
          cases m with
          | dir =>
            simp only [Option.map_some']
            rw [← ht, setNode_self]
          | file c => simp

/-- When the directory of its target exists, an entry changes the file store at its
target only, and what it leaves there and the error it ends on depend on the store
through the node at the target only. -/
theorem applyFile_eq_node {σ : Type} (X : External σ) (dest : Fs) (base : String) (subst : σ)
    (path src : String) (hp : dest (Dir (getTargetPath base path)) = some Node.dir) :
    applyFile X dest base subst path src
      = (setNode dest (getTargetPath base path)
          (nodeApply X subst (Ext path) src (getTargetPath base path)
            (dest (getTargetPath base path))).1,
         (nodeApply X subst (Ext path) src (getTargetPath base path)
            (dest (getTargetPath base path))).2) := by
  have hstep := step_flat X dest subst (Ext path) src (getTargetPath base path) hp
  unfold applyFile nodeApply
  simp only
  rw [hstep]
  simp only
  cases he : (nodeStep X subst (Ext path) src (getTargetPath base path)
      (dest (getTargetPath base path))).2 with
  | some e => rfl
  | none =>
    simp only
    split
    · have hp2 : setNode dest (getTargetPath base path)
          (nodeStep X subst (Ext path) src (getTargetPath base path)
            (dest (getTargetPath base path))).1 (Dir (getTargetPath base path))
          = some Node.dir := by
        by_cases hd : Dir (getTargetPath base path) = getTargetPath base path
        · rw [hd, setNode_same]
          rw [hd] at hp
          rw [hp]
          exact nodeStep_dir X subst _ src _
        · rw [setNode_other _ _ _ _ hd]
          exact hp
      rw [fmtHcl_flat X _ _ hp2]
      simp only [setNode_same, setNode_setNode]
    · rfl

/-! ### Markers and existing files -/

theorem applyFile_marker_existing {σ : Type} (X : External σ) (dest : Fs) (base : String)
    (subst : σ) (path src c : String) (hm : Ext path = ".touch" ∨ Ext path = ".create")
    (hc : dest (getTargetPath base path) = some (Node.file c)) :
    (Ext (getTargetPath base path) ≠ ".tf" →
      applyFile X dest base subst path src = (dest, none)) ∧
    (∀ out, Ext (getTargetPath base path) = ".tf" → X.format c = .ok out →
      applyFile X dest base subst path src
          = ((WriteReader dest (getTargetPath base path) out).1,
             (WriteReader dest (getTargetPath base path) out).2.map
               (fun e => wrap e "unable to format HCL")) ∧
      (dest (Dir (getTargetPath base path)) = some Node.dir →
        applyFile X dest base subst path src
          = (writeFile dest (getTargetPath base path) out, none))) := by
  have h1 : ¬ Ext path = ".tmpl" := by
    rcases hm with h | h <;> rw [h] <;> decide
  have hgen : ∀ out, Ext (getTargetPath base path) = ".tf" → X.format c = .ok out →
      applyFile X dest base subst path src
          = ((WriteReader dest (getTargetPath base path) out).1,
             (WriteReader dest (getTargetPath base path) out).2.map
               (fun e => wrap e "unable to format HCL")) := by
    intro out htf hf
    rcases hm with h | h
    · simp [applyFile, h, touchFile, Stat, hc, htf, fmtHcl, ReadFile, hf]
    · simp [applyFile, h, createFile, Stat, hc, htf, fmtHcl, ReadFile, hf]
  refine ⟨?_, fun out htf hf => ⟨hgen out htf hf, fun hp => ?_⟩⟩
  · intro htf
    rcases hm with h | h
    · simp [applyFile, h, touchFile, Stat, hc, htf]
    · simp [applyFile, h, createFile, Stat, hc, htf]
  · rw [hgen out htf hf, WriteReader_flat dest _ out hp, hc]
    rfl

theorem applyTree_cons_ok {σ : Type} (X : External σ) (dest : Fs) (f : String × String)
    (rest : Box) (base : String) (subst : σ)
    (h : (applyFile X dest base subst f.1 f.2).2 = none) :
    applyTree X dest (f :: rest) base subst
      = applyTree X (applyFile X dest base subst f.1 f.2).1 rest base subst := by
  rw [applyTree]
  cases hr : applyFile X dest base subst f.1 f.2 with
  | mk d e =>
    rw [hr] at h
    simp only at h
    subst h
    rfl

theorem applyTree_cons_error {σ : Type} (X : External σ) (dest : Fs) (f : String × String)
    (rest : Box) (base : String) (subst : σ) (e : String)
    (h : (applyFile X dest base subst f.1 f.2).2 = some e) :
    applyTree X dest (f :: rest) base subst
      = ((applyFile X dest base subst f.1 f.2).1, some e) := by
  rw [applyTree]
  cases hr : applyFile X dest base subst f.1 f.2 with
  | mk d e2 =>
    rw [hr] at h
    simp only at h
    subst h
    rfl

theorem applyTree_head_ok {σ : Type} (X : External σ) (dest : Fs) (f : String × String)
    (rest : Box) (base : String) (subst : σ)
    (h : (applyTree X dest (f :: rest) base subst).2 = none) :
    (applyFile X dest base subst f.1 f.2).2 = none := by
  cases he : (applyFile X dest base subst f.1 f.2).2 with
  | none => rfl
  | some e =>
    rw [applyTree_cons_error X dest f rest base subst e he] at h
    simp at h

/-- A file kept by every entry that targets it is kept by the whole walk. -/
theorem applyTree_keeps {σ : Type} (X : External σ) (base : String) (subst : σ) (t c : String)
    (hfmt : Ext t = ".tf" → X.format c = .ok c) (source : Box) :
    ∀ dest : Fs, dest t = some (Node.file c) →
      (∀ f ∈ source, getTargetPath base f.1 = t → Ext f.1 = ".touch" ∨ Ext f.1 = ".create") →
      (applyTree X dest source base subst).1 t = some (Node.file c) := by
  induction source with
  | nil =>
    intro dest hc _
    exact hc
  | cons f rest ih =>
    intro dest hc hall
    have hstep : (applyFile X dest base subst f.1 f.2).1 t = some (Node.file c) := by
      by_cases ht : getTargetPath base f.1 = t
      · have hm := hall f (List.mem_cons_self _ _) ht
        subst ht
        obtain ⟨hA, hB⟩ := applyFile_marker_existing X dest base subst f.1 f.2 c hm hc
        by_cases htf : Ext (getTargetPath base f.1) = ".tf"
        · rw [(hB c htf (hfmt htf)).1]
          exact WriteReader_same_file dest _ c hc
        · rw [hA htf]
          exact hc
      · exact applyFile_keeps X dest base subst f.1 f.2 t _ (fun h => ht h.symm) hc
    cases he : (applyFile X dest base subst f.1 f.2).2 with
    | some e =>
      rw [applyTree_cons_error X dest f rest base subst e he]
      exact hstep
    | none =>
      rw [applyTree_cons_ok X dest f rest base subst he]
      exact ih _ hstep (fun g hg => hall g (List.mem_cons_of_mem _ hg))

/-- C5 as stated fails: a hand-written `backend.tf` that is not in formatted form is
rewritten when the tree holds `backend.tf.touch`; the touch is skipped, the formatting
pass that follows is not. -/
theorem C5_counterexample :
    getTargetPath "" "backend.tf.touch" = "backend.tf" ∧
    sampleFs "backend.tf" = some (Node.file "a=1") ∧
    (applyTree sampleExternal sampleFs [("backend.tf.touch", "")] "" ()).2 = none ∧
    (applyTree sampleExternal sampleFs [("backend.tf.touch", "")] "" ()).1 "backend.tf"
      = some (Node.file "a=1\n") := by
  decide

/-- C5, amended: for an entry with a touch or seed marker whose target already exists
as a file, processing the entry leaves the file store as it is when the target does
not end in `.tf`; when it does, the content is formatted and written back with
`afero.WriteReader`, which, the directory of the target being there, replaces the
content by its formatted form.  Hence a walk of a whole tree, once or twice, leaves an
existing content untouched when every entry that targets the path carries a touch or
seed marker and, for a `.tf` path, the content is already in formatted form. -/
theorem C5_marker_keeps_existing {σ : Type} (X : External σ) (base : String) (subst : σ) :
    (∀ (dest : Fs) (path src c : String), Ext path = ".touch" ∨ Ext path = ".create" →
      dest (getTargetPath base path) = some (Node.file c) →
      (Ext (getTargetPath base path) ≠ ".tf" →
        applyFile X dest base subst path src = (dest, none)) ∧
      (∀ out, Ext (getTargetPath base path) = ".tf" → X.format c = .ok out →
        applyFile X dest base subst path src
            = ((WriteReader dest (getTargetPath base path) out).1,
               (WriteReader dest (getTargetPath base path) out).2.map
                 (fun e => wrap e "unable to format HCL")) ∧
        (dest (Dir (getTargetPath base path)) = some Node.dir →
          applyFile X dest base subst path src
            = (writeFile dest (getTargetPath base path) out, none)))) ∧
    (∀ (dest : Fs) (source : Box) (t c : String), dest t = some (Node.file c) →
      (Ext t = ".tf" → X.format c = .ok c) →
      (∀ f ∈ source, getTargetPath base f.1 = t → Ext f.1 = ".touch" ∨ Ext f.1 = ".create") →
      (applyTree X dest source base subst).1 t = some (Node.file c) ∧
      (applyTree X (applyTree X dest source base subst).1 source base subst).1 t
        = some (Node.file c)) := by
  refine ⟨fun dest path src c hm hc => applyFile_marker_existing X dest base subst path src c hm hc,
    fun dest source t c hc hfmt hall => ?_⟩
  have h1 := applyTree_keeps X base subst t c hfmt source dest hc hall
  exact ⟨h1, applyTree_keeps X base subst t c hfmt source _ h1 hall⟩

/-- C5, amended, at a tree with a seed entry for `NOTES` and a template: the existing
`NOTES` survives the walk. -/
theorem C5_marker_keeps_existing_witness :
    sampleFs "NOTES" = some (Node.file "keep me") ∧
    (applyTree sampleExternal sampleFs [("NOTES.create", "seed"), ("main.tf.tmpl", "x=1")] ""
      ()).1 "NOTES" = some (Node.file "keep me") :=
  ⟨by decide,
   ((C5_marker_keeps_existing sampleExternal "" ()).2 sampleFs
      [("NOTES.create", "seed"), ("main.tf.tmpl", "x=1")] "NOTES" "keep me" (by decide)
      (fun h => absurd h (by decide)) (by decide)).1⟩

/-! ### Traversal order -/

/-- An entry whose directory exists leaves every directory where it is. -/
theorem applyFile_keeps_dir {σ : Type} (X : External σ) (dest : Fs) (base : String) (subst : σ)
    (path src : String) (hp : dest (Dir (getTargetPath base path)) = some Node.dir)
    (d : String) (hd : dest d = some Node.dir) :
    (applyFile X dest base subst path src).1 d = some Node.dir := by
  rw [applyFile_eq_node X dest base subst path src hp]
  by_cases h : d = getTargetPath base path
  · subst h
    simp only [setNode_same]
    rw [hd]
    exact nodeApply_dir X subst _ src _
  · simp only [setNode_other _ _ _ _ h]
    exact hd

/-- Two files with different targets whose directories exist can be processed in either
order. -/
theorem applyFile_comm {σ : Type} (X : External σ) (dest : Fs) (base : String) (subst : σ)
    (x y : String × String) (hxy : getTargetPath base x.1 ≠ getTargetPath base y.1)
    (hx : dest (Dir (getTargetPath base x.1)) = some Node.dir)
    (hy : dest (Dir (getTargetPath base y.1)) = some Node.dir) :
    (applyFile X (applyFile X dest base subst y.1 y.2).1 base subst x.1 x.2).2
        = (applyFile X dest base subst x.1 x.2).2 ∧
    (applyFile X (applyFile X dest base subst x.1 x.2).1 base subst y.1 y.2).2
        = (applyFile X dest base subst y.1 y.2).2 ∧
    (applyFile X (applyFile X dest base subst x.1 x.2).1 base subst y.1 y.2).1
        = (applyFile X (applyFile X dest base subst y.1 y.2).1 base subst x.1 x.2).1 := by
  have hyx : getTargetPath base y.1 ≠ getTargetPath base x.1 := fun h => hxy h.symm
  have hx2 := applyFile_keeps_dir X dest base subst y.1 y.2 hy _ hx
  have hy2 := applyFile_keeps_dir X dest base subst x.1 x.2 hx _ hy
  rw [applyFile_eq_node X _ base subst x.1 x.2 hx2, applyFile_eq_node X _ base subst y.1 y.2 hy2]
  rw [applyFile_eq_node X dest base subst x.1 x.2 hx, applyFile_eq_node X dest base subst y.1 y.2 hy]
  simp only [setNode_other _ _ _ _ hxy, setNode_other _ _ _ _ hyx, true_and]
  exact (setNode_comm dest _ _ _ _ hxy)

theorem applyTree_perm {σ : Type} (X : External σ) (base : String) (subst : σ)
    (s1 s2 : Box) (hperm : s1.Perm s2) :
    ∀ dest : Fs, (s1.map (fun f => getTargetPath base f.1)).Nodup →
      (∀ f ∈ s1, dest (Dir (getTargetPath base f.1)) = some Node.dir) →
      (applyTree X dest s1 base subst).2 = none →
      applyTree X dest s2 base subst = applyTree X dest s1 base subst := by
  induction hperm with
  | nil =>
    intro _ _ _ _
    rfl
  | cons x _ ih =>
    intro dest hnd hdir hok
    have hx := applyTree_head_ok X dest x _ base subst hok
    rw [applyTree_cons_ok X dest x _ base subst hx] at hok
    rw [applyTree_cons_ok X dest x _ base subst hx, applyTree_cons_ok X dest x _ base subst hx]
    refine ih _ (List.nodup_cons.1 hnd).2 (fun f hf => ?_) hok
    exact applyFile_keeps_dir X dest base subst x.1 x.2 (hdir x (List.mem_cons_self _ _)) _
      (hdir f (List.mem_cons_of_mem _ hf))
  | swap x y l =>
    intro dest hnd hdir hok
    have hne : getTargetPath base x.1 ≠ getTargetPath base y.1 := by
      intro h
      have := (List.nodup_cons.1 hnd).1
      simp [h] at this
    have hdx := hdir x (List.mem_cons_of_mem _ (List.mem_cons_self _ _))
    have hdy := hdir y (List.mem_cons_self _ _)
    obtain ⟨c1, c2, c3⟩ := applyFile_comm X dest base subst x y hne hdx hdy
    have hy := applyTree_head_ok X dest y _ base subst hok
    rw [applyTree_cons_ok X dest y _ base subst hy] at hok
    have hx := applyTree_head_ok X _ x _ base subst hok
    rw [applyTree_cons_ok X dest y _ base subst hy, applyTree_cons_ok X _ x _ base subst hx,
      applyTree_cons_ok X dest x _ base subst (c1 ▸ hx),
      applyTree_cons_ok X _ y _ base subst (c2.trans hy), c3]
  | trans h1 _ ih1 ih2 =>
    intro dest hnd hdir hok
    have e1 := ih1 dest hnd hdir hok
    have hnd2 := ((h1.map (fun f => getTargetPath base f.1)).nodup_iff).1 hnd
    rw [ih2 dest hnd2 (fun f hf => hdir f (h1.mem_iff.2 hf)) (by rw [e1]; exact hok), e1]

/-- C7 as stated fails, in three ways.  A tree that holds both `a.tmpl` and `a` writes
the target `a` twice, and the entry processed last wins.  A tree with a failing entry
stops there, so that the files written depend on what came before the failure.  And a
seed entry creates the directory of its target while a touch entry does not, so that
`sub/b.touch` succeeds after `sub/a.create` and fails before it. -/
theorem C7_counterexample :
    List.Perm [("a.tmpl", "x"), ("a", "y")] [("a", "y"), ("a.tmpl", "x")] ∧
    (applyTree sampleExternal emptyFs [("a.tmpl", "x"), ("a", "y")] "" ()).2 = none ∧
    (applyTree sampleExternal emptyFs [("a", "y"), ("a.tmpl", "x")] "" ()).2 = none ∧
    (applyTree sampleExternal emptyFs [("a.tmpl", "x"), ("a", "y")] "" ()).1 "a"
      = some (Node.file "y") ∧
    (applyTree sampleExternal emptyFs [("a", "y"), ("a.tmpl", "x")] "" ()).1 "a"
      = some (Node.file "x") ∧
    List.Perm [("a.tmpl", "bad"), ("b", "y")] [("b", "y"), ("a.tmpl", "bad")] ∧
    (applyTree sampleExternal emptyFs [("a.tmpl", "bad"), ("b", "y")] "" ()).1 "b" = none ∧
    (applyTree sampleExternal emptyFs [("b", "y"), ("a.tmpl", "bad")] "" ()).1 "b"
      = some (Node.file "y") ∧
    List.Perm [("sub/a.create", "x"), ("sub/b.touch", "")]
      [("sub/b.touch", ""), ("sub/a.create", "x")] ∧
    (applyTree sampleExternal emptyFs [("sub/a.create", "x"), ("sub/b.touch", "")] "" ()).2
      = none ∧
    (applyTree sampleExternal emptyFs [("sub/b.touch", ""), ("sub/a.create", "x")] "" ()).2
      = some ("unable to touch file sub/b: unable to touch file: " ++
          "open sub/b: no such file or directory") ∧
    (applyTree sampleExternal emptyFs [("sub/a.create", "x"), ("sub/b.touch", "")] "" ()).1
      "sub/a" = some (Node.file "x") ∧
    (applyTree sampleExternal emptyFs [("sub/b.touch", ""), ("sub/a.create", "x")] "" ()).1
      "sub/a" = none := by
  refine ⟨List.Perm.swap _ _ _, by decide, by decide, by decide, by decide,
    List.Perm.swap _ _ _, by decide, by decide, List.Perm.swap _ _ _, by decide, by decide,
    by decide, by decide⟩

/-- C7, amended: when the entries of the tree have pairwise different target paths, the
directory of every target is there before the walk, and the walk succeeds in one
traversal order, the walk in any other order succeeds too and leaves the same file
store. -/
theorem C7_traversal_order {σ : Type} (X : External σ) (dest : Fs) (s1 s2 : Box)
    (base : String) (subst : σ) (hperm : s1.Perm s2)
    (hnd : (s1.map (fun f => getTargetPath base f.1)).Nodup)
    (hdir : ∀ f ∈ s1, dest (Dir (getTargetPath base f.1)) = some Node.dir)
    (hok : (applyTree X dest s1 base subst).2 = none) :
    applyTree X dest s2 base subst = applyTree X dest s1 base subst :=
  applyTree_perm X base subst s1 s2 hperm dest hnd hdir hok

/-- C7, amended, at a tree of three entries with different targets, walked in two
orders. -/
theorem C7_traversal_order_witness :
    applyTree sampleExternal sampleFs
        [("README.md", "r"), ("main.tf.tmpl", "x=1"), ("backend.tf.touch", "")] "" ()
      = applyTree sampleExternal sampleFs
        [("main.tf.tmpl", "x=1"), ("README.md", "r"), ("backend.tf.touch", "")] "" () :=
  C7_traversal_order sampleExternal sampleFs
    [("main.tf.tmpl", "x=1"), ("README.md", "r"), ("backend.tf.touch", "")]
    [("README.md", "r"), ("main.tf.tmpl", "x=1"), ("backend.tf.touch", "")] "" ()
    (List.Perm.swap _ _ _) (by decide) (by decide) (by decide)

end apply

/-! ## Module invocations -/

namespace sort

theorem Strings_sorted_data (a : List String) :
    (Strings a).Sorted (fun x y => x.data ≤ y.data) := by
  haveI : IsTotal String (fun x y => x.data ≤ y.data) := ⟨fun x y => le_total x.data y.data⟩
  haveI : IsTrans String (fun x y => x.data ≤ y.data) :=
    ⟨fun x y z hxy hyz => le_trans hxy hyz⟩
  exact List.sorted_insertionSort _ a

theorem Strings_sorted (a : List String) : (Strings a).Sorted (· ≤ ·) :=
  List.Pairwise.imp (fun h => String.le_iff_toList_le.2 h) (Strings_sorted_data a)

theorem Strings_perm (a : List String) : (Strings a).Perm a :=
  List.perm_insertionSort _ a

theorem Strings_eq_of_perm {a b : List String} (h : a.Perm b) : Strings a = Strings b :=
  List.eq_of_perm_of_sorted ((Strings_perm a).trans (h.trans (Strings_perm b).symm))
    (Strings_sorted a) (Strings_sorted b)

end sort

namespace apply

open filepath

theorem Clean_tail (p : String) (pre w s : List Char) (hp : p.data = pre ++ (w ++ '.' :: s))
    (hw : ∀ ch ∈ w, ch ≠ '/') (hne : s ≠ []) (hs : ∀ ch ∈ s, ch ≠ '/' ∧ ch ≠ '.') :
    ∃ q, (Clean p).data = q ++ (w ++ '.' :: s) := by
  have hpne : p ≠ "" := by
    intro h
    rw [h] at hp
    simp at hp
  have hsep : ∀ ch ∈ w ++ '.' :: s, ch ≠ '/' := by
    intro ch hch
    rcases List.mem_append.1 hch with h | h
    · exact hw ch h
    · rcases List.mem_cons.1 h with h | h
      · subst h
        decide
      · exact (hs ch h).1
  obtain ⟨init, lst, hsp⟩ := splitSep_append pre (w ++ '.' :: s) hsep
  have hout : ∀ rooted : Bool, ∃ st : List (List Char),
      ((splitSep p.data).foldl (cleanStep rooted) ([], 0)).1 = st ++ [lst ++ (w ++ '.' :: s)] := by
    intro rooted
    rw [hp, hsp, List.foldl_append]
    simp only [List.foldl_cons, List.foldl_nil]
    have := cleanStep_regular rooted
      (List.foldl (cleanStep rooted) ([], 0) init) (lst ++ w) s hne hs
    simp only [List.append_assoc] at this
    rw [this]
    exact ⟨_, rfl⟩
  unfold Clean
  rw [if_neg hpne]
  simp only
  split
  · obtain ⟨st, hst⟩ := hout (decide (p.data.head? = some '/'))
    obtain ⟨q, hq⟩ := joinSep_append_singleton st (lst ++ (w ++ '.' :: s))
    rw [hst, hq]
    exact ⟨'/' :: (q ++ lst), by simp⟩
  · obtain ⟨st, hst⟩ := hout (decide (p.data.head? = some '/'))
    obtain ⟨q, hq⟩ := joinSep_append_singleton st (lst ++ (w ++ '.' :: s))
    rw [hst, hq]
    rw [if_neg (by simp)]
    exact ⟨q ++ lst, by simp⟩

/-- `Join` keeps a last argument that is one element with a proper extension. -/
theorem Join_tail (a b : String) (w s : List Char) (hb : b.data = w ++ '.' :: s)
    (hw : ∀ ch ∈ w, ch ≠ '/') (hne : s ≠ []) (hs : ∀ ch ∈ s, ch ≠ '/' ∧ ch ≠ '.') :
    ∃ q, (Join a b).data = q ++ b.data := by
  have hbne : b ≠ "" := by
    intro h
    rw [h] at hb
    simp at hb
  rw [hb]
  unfold Join
  by_cases ha : a = ""
  · simp only [ha, ne_eq, not_true_eq_false, if_false, hbne, not_false_eq_true, if_true]
    exact Clean_tail b [] w s (by simpa using hb) hw hne hs
  · simp only [ne_eq, ha, not_false_eq_true, if_true]
    exact Clean_tail (a ++ "/" ++ b) (a.data ++ ['/']) w s
      (by simp [String.data_append, hb]) hw hne hs

/-- The two invocation files are different files. -/
theorem Join_main_ne_outputs (path : String) : Join path "main.tf" ≠ Join path "outputs.tf" := by
  obtain ⟨q1, h1⟩ := Join_tail path "main.tf" ['m', 'a', 'i', 'n'] ['t', 'f'] rfl
    (by decide) (by decide) (by decide)
  obtain ⟨q2, h2⟩ := Join_tail path "outputs.tf" ['o', 'u', 't', 'p', 'u', 't', 's'] ['t', 'f'] rfl
    (by decide) (by decide) (by decide)
  intro h
  rw [h, h2] at h1
  have h3 := congrArg (fun l => l.reverse.take 4) h1
  simp at h3

theorem applyTemplate_ok {σ : Type} (X : External σ) (src : String) (fs : Fs) (t : String)
    (subst : σ) (h : (applyTemplate X src fs t subst).2 = none) :
    (X.execute src subst).2 = none ∧
    (applyTemplate X src fs t subst).1 t = some (Node.file (X.execute src subst).1) := by
  unfold applyTemplate at h ⊢
  cases hc : Create fs t with
  | mk f e =>
    rw [hc] at h
    cases e with
    | some err => simp at h
    | none => exact ⟨h, by simp [writeFile]⟩

theorem fmtHcl_ok {σ : Type} (X : External σ) (fs : Fs) (t : String)
    (h : (fmtHcl X fs t).2 = none) :
    ∃ c out, fs t = some (Node.file c) ∧ X.format c = .ok out ∧
      (fmtHcl X fs t).1 t = some (Node.file out) := by
  unfold fmtHcl ReadFile at h ⊢
  cases ht : fs t with
  | none => simp [ht] at h
  | some m =>
    cases m with
    | dir => simp [ht] at h
    | file c =>
      simp only [ht] at h ⊢
      cases hf : X.format c with
      | error e => simp [hf] at h
      | ok out =>
        simp only [hf] at h ⊢
        exact ⟨c, out, rfl, hf, WriteReader_ok fs t out h⟩

/-- An invocation file that is generated without error holds the formatted output of
its template, executed on the data `d`. -/
theorem applyInvocationFile_ok (H : Host) (fs : Fs) (path : String) (box : Box) (name : String)
    (d : moduleData) (h : (applyInvocationFile H fs path box name d).2 = none) :
    ∃ f out, boxOpen box (name ++ ".tmpl") = .ok f ∧
      (H.execute f (Subst.moduleData d)).2 = none ∧
      H.format (H.execute f (Subst.moduleData d)).1 = .ok out ∧
      (applyInvocationFile H fs path box name d).1 (Join path name) = some (Node.file out) := by
  unfold applyInvocationFile at h ⊢
  cases hb : boxOpen box (name ++ ".tmpl") with
  | error e => simp [hb] at h
  | ok f =>
    simp only [hb] at h ⊢
    cases ht : applyTemplate H.toExternal f fs (Join path name) (Subst.moduleData d) with
    | mk fs1 e1 =>
      rw [ht] at h
      cases e1 with
      | some err => simp at h
      | none =>
        simp only at h ⊢
        have ht2 := applyTemplate_ok H.toExternal f fs (Join path name) (Subst.moduleData d)
          (by rw [ht])
        rw [ht] at ht2
        cases hf : fmtHcl H.toExternal fs1 (Join path name) with
        | mk fs2 e2 =>
          rw [hf] at h
          cases e2 with
          | some err => simp at h
          | none =>
            obtain ⟨c, out, hc, hfo, hout⟩ := fmtHcl_ok H.toExternal fs1 (Join path name)
              (by rw [hf])
            rw [hf] at hout
            have hc2 : c = (H.execute f (Subst.moduleData d)).1 := by
              have := ht2.2
              simp only at this
              rw [hc] at this
              injection this with this
              injection this
            subst hc2
            exact ⟨f, out, rfl, ht2.1, hfo, hout⟩

theorem applyInvocationFile_keeps (H : Host) (fs : Fs) (path : String) (box : Box)
    (name : String) (d : moduleData) (q : String) (n : Node) (hq : q ≠ Join path name)
    (h : fs q = some n) : (applyInvocationFile H fs path box name d).1 q = some n := by
  unfold applyInvocationFile
  cases boxOpen box (name ++ ".tmpl") with
  | error e => exact h
  | ok f =>
    simp only
    have h1 := applyTemplate_keeps H.toExternal f fs (Join path name) (Subst.moduleData d) q n hq h
    cases ht : applyTemplate H.toExternal f fs (Join path name) (Subst.moduleData d) with
    | mk fs1 e1 =>
      rw [ht] at h1
      cases e1 with
      | some err => exact h1
      | none =>
        simp only
        have h2 := fmtHcl_keeps H.toExternal fs1 (Join path name) q n hq h1
        cases hf : fmtHcl H.toExternal fs1 (Join path name) with
        | mk fs2 e2 =>
          rw [hf] at h2
          cases e2 <;> exact h2

/-- A module invocation that is generated without error leaves, in `main.tf` and in
`outputs.tf` of the component directory, the formatted output of the two templates,
each executed on one and the same data, whose two name lists are in ascending order
and hold the reported names. -/
theorem applyModuleInvocation_ok (H : Host) (fs : Fs) (path moduleAddress : String) (box : Box)
    (mc : util.ModuleConfig) (hd : H.downloadAndParseModule moduleAddress = .ok mc)
    (hok : (applyModuleInvocation H fs path moduleAddress box).2 = none) :
    ∃ (d : moduleData) (f1 f2 o1 o2 : String),
      d.Variables.Sorted (· ≤ ·) ∧ d.Variables.Perm (mc.Variables.map (fun v => v.Name)) ∧
      d.Outputs.Sorted (· ≤ ·) ∧ d.Outputs.Perm (mc.Outputs.map (fun o => o.Name)) ∧
      boxOpen box "main.tf.tmpl" = .ok f1 ∧ boxOpen box "outputs.tf.tmpl" = .ok f2 ∧
      H.format (H.execute f1 (Subst.moduleData d)).1 = .ok o1 ∧
      H.format (H.execute f2 (Subst.moduleData d)).1 = .ok o2 ∧
      (applyModuleInvocation H fs path moduleAddress box).1 (Join path "main.tf")
        = some (Node.file o1) ∧
      (applyModuleInvocation H fs path moduleAddress box).1 (Join path "outputs.tf")
        = some (Node.file o2) := by
  unfold applyModuleInvocation at hok ⊢
  cases hm : MkdirAll fs path with
  | mk fs0 e0 =>
    rw [hm] at hok
    cases e0 with
    | some err => simp at hok
    | none =>
      simp only [hd] at hok ⊢
      cases h1 : applyInvocationFile H fs0 path box "main.tf"
          (moduleDataOf H path moduleAddress mc) with
      | mk fs1 e1 =>
        rw [h1] at hok
        cases e1 with
        | some err => simp at hok
        | none =>
          simp only at hok ⊢
          obtain ⟨f1, o1, hb1, _, hf1, hc1⟩ := applyInvocationFile_ok H fs0 path box "main.tf"
            (moduleDataOf H path moduleAddress mc) (by rw [h1])
          rw [h1] at hc1
          obtain ⟨f2, o2, hb2, _, hf2, hc2⟩ := applyInvocationFile_ok H fs1 path box "outputs.tf"
            (moduleDataOf H path moduleAddress mc) hok
          exact ⟨moduleDataOf H path moduleAddress mc, f1, f2, o1, o2,
            sort.Strings_sorted _, sort.Strings_perm _, sort.Strings_sorted _,
            sort.Strings_perm _, hb1, hb2, hf1, hf2,
            applyInvocationFile_keeps H fs1 path box "outputs.tf" _ _ _
              (Join_main_ne_outputs path) hc1, hc2⟩

/-- C11: a module invocation that is generated leaves in `main.tf` and `outputs.tf` the
formatted output of the two templates, executed on data whose variable names and
output names are in ascending order and are the reported names; the data and the
generated files are the same for every order in which the metadata reports the names
(variables `b, a` and outputs `y, x` give `a, b` and `x, y`). -/
theorem C11_sorted_names (H : Host) (fs : Fs) (path moduleAddress : String) (box : Box)
    (mc : util.ModuleConfig) :
    (H.downloadAndParseModule moduleAddress = .ok mc →
      (applyModuleInvocation H fs path moduleAddress box).2 = none →
      ∃ (d : moduleData) (f1 f2 o1 o2 : String),
        d.Variables.Sorted (· ≤ ·) ∧ d.Variables.Perm (mc.Variables.map (fun v => v.Name)) ∧
        d.Outputs.Sorted (· ≤ ·) ∧ d.Outputs.Perm (mc.Outputs.map (fun o => o.Name)) ∧
        boxOpen box "main.tf.tmpl" = .ok f1 ∧ boxOpen box "outputs.tf.tmpl" = .ok f2 ∧
        H.format (H.execute f1 (Subst.moduleData d)).1 = .ok o1 ∧
        H.format (H.execute f2 (Subst.moduleData d)).1 = .ok o2 ∧
        (applyModuleInvocation H fs path moduleAddress box).1 (Join path "main.tf")
          = some (Node.file o1) ∧
        (applyModuleInvocation H fs path moduleAddress box).1 (Join path "outputs.tf")
          = some (Node.file o2)) ∧
    (∀ mc2 : util.ModuleConfig,
      (mc2.Variables.map (fun v => v.Name)).Perm (mc.Variables.map (fun v => v.Name)) →
      (mc2.Outputs.map (fun o => o.Name)).Perm (mc.Outputs.map (fun o => o.Name)) →
      moduleDataOf H path moduleAddress mc2 = moduleDataOf H path moduleAddress mc ∧
      applyModuleInvocation { H with downloadAndParseModule := fun _ => .ok mc2 } fs path
          moduleAddress box
        = applyModuleInvocation { H with downloadAndParseModule := fun _ => .ok mc } fs path
          moduleAddress box) ∧
    (moduleDataOf H path moduleAddress ⟨[⟨"b"⟩, ⟨"a"⟩], [⟨"y"⟩, ⟨"x"⟩]⟩).Variables = ["a", "b"] ∧
    (moduleDataOf H path moduleAddress ⟨[⟨"b"⟩, ⟨"a"⟩], [⟨"y"⟩, ⟨"x"⟩]⟩).Outputs = ["x", "y"] := by
  refine ⟨fun hd hok => applyModuleInvocation_ok H fs path moduleAddress box mc hd hok,
    ?_, by simp only [moduleDataOf]; decide, by simp only [moduleDataOf]; decide⟩
  intro mc2 hv ho
  have hd : moduleDataOf H path moduleAddress mc2 = moduleDataOf H path moduleAddress mc := by
    simp only [moduleDataOf, sort.Strings_eq_of_perm hv, sort.Strings_eq_of_perm ho]
  refine ⟨hd, ?_⟩
  have h1 : ∀ m : util.ModuleConfig,
      applyModuleInvocation { H with downloadAndParseModule := fun _ => .ok m } fs path
          moduleAddress box
        = (match MkdirAll fs path with
          | (fs0, some e) => (fs0, some (wrap e ("couldn't create " ++ path ++ " directory")))
          | (fs0, none) =>
            match applyInvocationFile H fs0 path box "main.tf"
                (moduleDataOf H path moduleAddress m) with
            | (fs1, some e) => (fs1, some e)
            | (fs1, none) => applyInvocationFile H fs1 path box "outputs.tf"
                (moduleDataOf H path moduleAddress m)) := fun _ => rfl
  rw [h1 mc2, h1 mc, hd]

/-- C11 at the stand-in host, whose templates print the two lists: with the metadata
reported as `b, a` and `y, x`, the generated `main.tf` and `outputs.tf` list the
variables as `a,b` and the outputs as `x,y`. -/
theorem C11_sorted_names_witness :
    (∃ (d : moduleData) (f1 f2 o1 o2 : String),
      d.Variables.Sorted (· ≤ ·) ∧ d.Variables.Perm ["b", "a"] ∧
      d.Outputs.Sorted (· ≤ ·) ∧ d.Outputs.Perm ["y", "x"] ∧
      boxOpen sampleHost.moduleInvocation "main.tf.tmpl" = .ok f1 ∧
      boxOpen sampleHost.moduleInvocation "outputs.tf.tmpl" = .ok f2 ∧
      sampleHost.format (sampleHost.execute f1 (Subst.moduleData d)).1 = .ok o1 ∧
      sampleHost.format (sampleHost.execute f2 (Subst.moduleData d)).1 = .ok o2 ∧
      (applyModuleInvocation sampleHost emptyFs "terraform/envs/prod/vpc"
          "terraform/modules/vpc" sampleHost.moduleInvocation).1
        (Join "terraform/envs/prod/vpc" "main.tf") = some (Node.file o1) ∧
      (applyModuleInvocation sampleHost emptyFs "terraform/envs/prod/vpc"
          "terraform/modules/vpc" sampleHost.moduleInvocation).1
        (Join "terraform/envs/prod/vpc" "outputs.tf") = some (Node.file o2)) ∧
    (applyModuleInvocation sampleHost emptyFs "terraform/envs/prod/vpc"
        "terraform/modules/vpc" sampleHost.moduleInvocation).1
      "terraform/envs/prod/vpc/main.tf"
      = some (Node.file "main vpc ../../../../terraform/modules/vpc a,b x,y\n") ∧
    (applyModuleInvocation sampleHost emptyFs "terraform/envs/prod/vpc"
        "terraform/modules/vpc" sampleHost.moduleInvocation).1
      "terraform/envs/prod/vpc/outputs.tf"
      = some (Node.file "outputs vpc ../../../../terraform/modules/vpc a,b x,y\n") :=
  ⟨(C11_sorted_names sampleHost emptyFs "terraform/envs/prod/vpc" "terraform/modules/vpc"
      sampleHost.moduleInvocation
      { Variables := [⟨"b"⟩, ⟨"a"⟩], Outputs := [⟨"y"⟩, ⟨"x"⟩] }).1 rfl (by decide),
   by decide, by decide⟩

/-- C12 as stated fails: a name that the metadata reports twice is twice in the list
handed to the templates. -/
theorem C12_counterexample :
    (moduleDataOf sampleHost "terraform/envs/prod/vpc" "terraform/modules/vpc"
      { Variables := [⟨"b"⟩, ⟨"a"⟩, ⟨"a"⟩], Outputs := [⟨"x"⟩, ⟨"x"⟩] }).Variables
        = ["a", "a", "b"] ∧
    (moduleDataOf sampleHost "terraform/envs/prod/vpc" "terraform/modules/vpc"
      { Variables := [⟨"b"⟩, ⟨"a"⟩, ⟨"a"⟩], Outputs := [⟨"x"⟩, ⟨"x"⟩] }).Outputs
        = ["x", "x"] ∧
    ¬ (["a", "a", "b"] : List String).Nodup ∧ ¬ (["x", "x"] : List String).Nodup := by
  refine ⟨?_, ?_, by decide, by decide⟩
  · simp [moduleDataOf, sort.Strings, List.insertionSort, List.orderedInsert]
    decide
  · simp [moduleDataOf, sort.Strings, List.insertionSort, List.orderedInsert]

/-- C12, amended: the two lists hold every reported name as often as the metadata
reports it, so they are free of duplicates exactly when the metadata reports no name
twice. -/
theorem C12_names_as_reported (H : Host) (path moduleAddress : String)
    (mc : util.ModuleConfig) :
    (moduleDataOf H path moduleAddress mc).Variables.Perm (mc.Variables.map (fun v => v.Name)) ∧
    (moduleDataOf H path moduleAddress mc).Outputs.Perm (mc.Outputs.map (fun o => o.Name)) ∧
    ((moduleDataOf H path moduleAddress mc).Variables.Nodup ↔
      (mc.Variables.map (fun v => v.Name)).Nodup) ∧
    ((moduleDataOf H path moduleAddress mc).Outputs.Nodup ↔
      (mc.Outputs.map (fun o => o.Name)).Nodup) :=
  ⟨sort.Strings_perm _, sort.Strings_perm _, (sort.Strings_perm _).nodup_iff,
    (sort.Strings_perm _).nodup_iff⟩

theorem takeWhile_append_sep (xs ys : List Char) (h : ∀ ch ∈ xs, ch ≠ '/') :
    (xs ++ '/' :: ys).takeWhile (fun c => c != '/') = xs := by
  induction xs with
  | nil => simp
  | cons c t ih =>
    have hc := h c (List.mem_cons_self _ _)
    simp [List.takeWhile_cons, hc, ih (fun ch hch => h ch (List.mem_cons_of_mem _ hch))]

/-- The base of a path that ends in a non-empty element is that element. -/
theorem Base_of_segment (a : String) (pre seg : List Char) (ha : a.data = pre ++ '/' :: seg)
    (hne : seg ≠ []) (hs : ∀ ch ∈ seg, ch ≠ '/') : Base a = ⟨seg⟩ := by
  have hane : a ≠ "" := by
    intro h
    rw [h] at ha
    simp at ha
  have hrev : a.data.reverse = seg.reverse ++ '/' :: pre.reverse := by
    rw [ha]
    simp
  obtain ⟨c, r, hcr⟩ := List.exists_cons_of_ne_nil (by simpa using hne : seg.reverse ≠ [])
  have hc : c ≠ '/' := by
    have : c ∈ seg.reverse := by rw [hcr]; exact List.mem_cons_self _ _
    exact hs c (List.mem_reverse.1 this)
  have hdrop : (a.data.reverse).dropWhile (fun c => c == '/') = seg.reverse ++ '/' :: pre.reverse := by
    rw [hrev, hcr]
    simp [List.dropWhile_cons, hc]
  have htake : ((a.data.reverse).dropWhile (fun c => c == '/')).takeWhile (fun c => c != '/')
      = seg.reverse := by
    rw [hdrop]
    exact takeWhile_append_sep _ _ (fun ch hch => hs ch (List.mem_reverse.1 hch))
  simp only [Base, if_neg hane, htake, List.reverse_reverse, if_neg hne]

end apply

namespace regexp

theorem stripRefAux_inMatch (r : List Char) (h : ∀ ch ∈ r, ch ≠ '\n') :
    stripRefAux 0 true r = [] := by
  induction r with
  | nil => rfl
  | cons c t ih =>
    have hc := h c (List.mem_cons_self _ _)
    simp [stripRefAux, hc, ih (fun ch hch => h ch (List.mem_cons_of_mem _ hch))]

theorem stripRefAux_ref (n r : List Char) (hn : ∀ ch ∈ n, ch ≠ '?')
    (hr : ∀ ch ∈ r, ch ≠ '\n') :
    stripRefAux 0 false (n ++ ['?', 'r', 'e', 'f', '='] ++ r) = n := by
  induction n with
  | nil =>
    simp [stripRefAux, stripRefAux_inMatch r hr]
  | cons c t ih =>
    have hc : c ≠ '?' := hn c (List.mem_cons_self _ _)
    have hc2 : ¬ '?' = c := fun e => hc e.symm
    have ih2 := ih (fun ch hch => hn ch (List.mem_cons_of_mem _ hch))
    simp only [List.append_assoc, List.cons_append, List.nil_append] at ih2
    simp [stripRefAux, hc2, ih2]

theorem stripRefAux_none (l : List Char) (h : ¬ ['?', 'r', 'e', 'f', '='] <:+: l) :
    stripRefAux 0 false l = l := by
  induction l with
  | nil => rfl
  | cons c t ih =>
    have hp : ¬ ['?', 'r', 'e', 'f', '='] <+: c :: t := fun hp => h hp.isInfix
    have ht : ¬ ['?', 'r', 'e', 'f', '='] <:+: t := by
      intro hi
      apply h
      obtain ⟨a, b, hab⟩ := hi
      exact ⟨c :: a, b, by simp [← hab]⟩
    simp only [stripRefAux, if_neg hp, ih ht]

end regexp

namespace apply

open filepath

/-- The base of a path holds no text that the path does not hold. -/
theorem Base_within (a : String) (w : List Char) (hw : w <:+: (Base a).data) (h2 : 2 ≤ w.length) :
    w <:+: a.data := by
  unfold Base at hw
  split at hw
  · have : (".".data).length = 1 := rfl
    have := hw.length_le
    simp at this
    omega
  · simp only at hw
    split at hw
    · have := hw.length_le
      simp at this
      omega
    · simp only at hw
      have h1 : ((a.data.reverse.dropWhile (fun c => c == '/')).takeWhile
          (fun c => c != '/')).reverse <:+: a.data := by
        have p1 := List.takeWhile_prefix (fun c => c != '/')
          (l := a.data.reverse.dropWhile (fun c => c == '/'))
        have p2 := List.dropWhile_suffix (fun c => c == '/') (l := a.data.reverse)
        have p3 := (p1.isInfix.trans p2.isInfix)
        have p4 := List.reverse_infix.2 p3
        simpa using p4
      exact hw.trans h1

/-- C13 as stated fails: a reference that holds a path separator, such as a branch
name, becomes the source of the display name, because the base of the address is taken
before the reference is cut off; and the cut ends at a line feed. -/
theorem C13_counterexample :
    "git::https://example.com/modules.git//vpc?ref=feature/x"
      = "git::https://example.com/modules.git/" ++ "/" ++ "vpc" ++ "?ref=" ++ "feature/x" ∧
    moduleNameOf "git::https://example.com/modules.git//vpc?ref=feature/x" = "x" ∧
    moduleNameOf ("modules/" ++ "vpc" ++ "?ref=" ++ "v1\nnext") = "vpc\nnext" := by
  decide

/-- C13, amended: for an address `P/N?ref=R` in which `N` holds no separator and no
question mark and `R` holds no separator and no line feed, the display name is `N`;
for an address that holds no `?ref=` the display name is the base of the address. -/
theorem C13_module_name :
    (∀ P N R : String, '/' ∉ N.data → '?' ∉ N.data → '/' ∉ R.data → '\n' ∉ R.data →
      moduleNameOf (P ++ "/" ++ N ++ "?ref=" ++ R) = N) ∧
    (∀ A : String, ¬ "?ref=".data <:+: A.data → moduleNameOf A = Base A) ∧
    moduleNameOf "git::https://example.com/modules.git//vpc?ref=v1.2.0" = "vpc" := by
  refine ⟨?_, ?_, by decide⟩
  · intro P N R hN1 hN2 hR1 hR2
    have hseg : ∀ ch ∈ N.data ++ ['?', 'r', 'e', 'f', '='] ++ R.data, ch ≠ '/' := by
      intro ch hch
      simp only [List.mem_append, List.mem_cons] at hch
      rcases hch with (h | h) | h
      · exact fun e => hN1 (e ▸ h)
      · rcases h with h | h | h | h | h | h <;> first | (subst h; decide) | simp at h
      · exact fun e => hR1 (e ▸ h)
    have hbase : Base (P ++ "/" ++ N ++ "?ref=" ++ R)
        = ⟨N.data ++ ['?', 'r', 'e', 'f', '='] ++ R.data⟩ := by
      apply Base_of_segment _ P.data _ _ (by simp) hseg
      simp [String.data_append]
    simp only [moduleNameOf, hbase, regexp.stripRef]
    rw [regexp.stripRefAux_ref N.data R.data (fun ch hch e => hN2 (e ▸ hch))
      (fun ch hch e => hR2 (e ▸ hch))]
  · intro A hA
    simp only [moduleNameOf, regexp.stripRef]
    rw [regexp.stripRefAux_none]
    intro hi
    exact hA (Base_within A _ hi (by decide))

/-- C13, amended, at the address of the specification. -/
theorem C13_module_name_witness :
    moduleNameOf ("git::https://example.com/modules.git/" ++ "/" ++ "vpc" ++ "?ref=" ++ "v1.2.0")
      = "vpc" :=
  C13_module_name.1 "git::https://example.com/modules.git/" "vpc" "v1.2.0"
    (by decide) (by decide) (by decide) (by decide)

/-- C14 as stated fails: an address whose detected form does not parse as a URL is not
of the scheme `file`, and yet it is replaced by the relative path instead of being
passed through. -/
theorem C14_counterexample :
    (sampleHost.detect "git::https://example.com/mod\tules.git" "terraform/envs/prod/vpc").1
      = "git::https://example.com/mod\tules.git" ∧
    (∃ e, sampleHost.parse "git::https://example.com/mod\tules.git" = .error e) ∧
    (calculateModuleAddressForSource sampleHost "terraform/envs/prod/vpc"
        "git::https://example.com/mod\tules.git").1
      = "../../../../git::https://example.com/mod\tules.git" ∧
    "../../../../git::https://example.com/mod\tules.git"
      ≠ "git::https://example.com/mod\tules.git" :=
  ⟨by decide, ⟨_, rfl⟩, by decide, by decide⟩

/-- C14, amended: the source address written into the invocation is what `filepath.Rel`
gives for the component directory and the module address (the empty string when it
fails) when the detected form does not parse as a URL or has the scheme `file`, and the
module address unchanged in every other case; no error is ever returned. -/
theorem C14_module_source (H : Host) (path moduleAddress : String) :
    (calculateModuleAddressForSource H path moduleAddress).2 = none ∧
    (∀ mc, (moduleDataOf H path moduleAddress mc).ModuleSource
      = (calculateModuleAddressForSource H path moduleAddress).1) ∧
    (∀ e, H.parse (H.detect moduleAddress path).1 = .error e →
      (calculateModuleAddressForSource H path moduleAddress).1
        = relativeAddress H path moduleAddress) ∧
    (∀ u, H.parse (H.detect moduleAddress path).1 = .ok u → u.Scheme = "file" →
      (calculateModuleAddressForSource H path moduleAddress).1
        = relativeAddress H path moduleAddress) ∧
    (∀ u, H.parse (H.detect moduleAddress path).1 = .ok u → u.Scheme ≠ "file" →
      (calculateModuleAddressForSource H path moduleAddress).1 = moduleAddress) := by
  refine ⟨rfl, fun _ => rfl, ?_, ?_, ?_⟩
  · intro e he
    simp only [calculateModuleAddressForSource, he, relativeAddress]
  · intro u hu hs
    simp only [calculateModuleAddressForSource, hu, hs, if_true, relativeAddress]
  · intro u hu hs
    simp only [calculateModuleAddressForSource, hu, if_neg hs]

/-- C14, amended, at the remote address of the specification, which is passed
through, and at a module of the repository, which is made relative. -/
theorem C14_module_source_witness :
    (calculateModuleAddressForSource sampleHost "terraform/envs/prod/vpc"
        "git::https://example.com/modules.git//vpc?ref=v1.2.0").1
      = "git::https://example.com/modules.git//vpc?ref=v1.2.0" ∧
    (calculateModuleAddressForSource sampleHost "terraform/envs/prod/vpc"
        "terraform/modules/vpc").1
      = relativeAddress sampleHost "terraform/envs/prod/vpc" "terraform/modules/vpc" ∧
    relativeAddress sampleHost "terraform/envs/prod/vpc" "terraform/modules/vpc"
      = "../../../../terraform/modules/vpc" :=
  ⟨(C14_module_source sampleHost "terraform/envs/prod/vpc"
      "git::https://example.com/modules.git//vpc?ref=v1.2.0").2.2.2.2 ⟨"git"⟩ rfl (by decide),
   (C14_module_source sampleHost "terraform/envs/prod/vpc"
      "terraform/modules/vpc").2.2.2.1 ⟨"file"⟩ rfl rfl,
   by decide⟩

/-! ## The orchestrator -/

theorem seqStages_cons_named (msg : String) (s : Stage) (rest : List Stage) (fs : Fs) :
    seqStages (named msg s :: rest) fs
      = (match s fs with
        | (fs1, some e) => (fs1, some (wrap e msg))
        | (fs1, none) => seqStages rest fs1) := by
  simp only [seqStages, named]
  cases h : s fs with
  | mk f e => cases e <;> rfl

theorem seqStages_append (l1 l2 : List Stage) (fs : Fs) :
    seqStages (l1 ++ l2) fs
      = (match seqStages l1 fs with
        | (fs1, some e) => (fs1, some e)
        | (fs1, none) => seqStages l2 fs1) := by
  induction l1 generalizing fs with
  | nil => rfl
  | cons s t ih =>
    simp only [List.cons_append, seqStages]
    cases h : s fs with
    | mk f e =>
      cases e with
      | none => exact ih f
      | some err => rfl

/-- Stages after a failing stage are not run. -/
theorem seqStages_fails (pre post : List Stage) (s : Stage) (fs fs1 fs2 : Fs) (e : String)
    (hpre : seqStages pre fs = (fs1, none)) (hs : s fs1 = (fs2, some e)) :
    seqStages (pre ++ s :: post) fs = (fs2, some e) := by
  rw [seqStages_append, hpre]
  simp only [seqStages, hs]

theorem applyPluginMap_eq (H : Host) (m : GoMap plugins.CustomPlugin) (fs : Fs) :
    applyPluginMap H fs m
      = seqStages (m.map (fun kv =>
          named ("Error applying plugin " ++ kv.1) (fun fs => H.install kv.2 fs kv.1))) fs := by
  induction m generalizing fs with
  | nil => rfl
  | cons kv rest ih =>
    rw [List.map_cons, seqStages_cons_named, applyPluginMap]
    cases h : H.install kv.2 fs kv.1 with
    | mk f e =>
      cases e with
      | none => exact ih f
      | some err => rfl

theorem applyAccountMap_eq (H : Host) (box : Box) (m : GoMap plan.account) (fs : Fs) :
    applyAccountMap H box fs m
      = seqStages ((m.map (fun kv =>
          [named "unable to make directories for accounts"
            (fun fs => MkdirAll fs (rootPath ++ "/accounts/" ++ kv.1)),
           named "unable to apply templates to account"
            (fun fs => applyTree H.toExternal fs box (rootPath ++ "/accounts/" ++ kv.1)
              (Subst.account kv.2))])).flatten) fs := by
  induction m generalizing fs with
  | nil => rfl
  | cons kv rest ih =>
    rw [List.map_cons, List.flatten_cons]
    simp only [List.cons_append, List.nil_append, seqStages_cons_named]
    rw [applyAccountMap]
    cases h0 : MkdirAll fs (rootPath ++ "/accounts/" ++ kv.1) with
    | mk f0 e0 =>
      cases e0 with
      | some err => rfl
      | none =>
        simp only
        cases h : applyTree H.toExternal f0 box (rootPath ++ "/accounts/" ++ kv.1)
            (Subst.account kv.2) with
        | mk f e =>
          cases e with
          | none => exact ih f
          | some err => rfl

theorem applyModuleMap_eq (H : Host) (box : Box) (m : GoMap plan.Module) (fs : Fs) :
    applyModuleMap H box fs m
      = seqStages ((m.map (fun kv =>
          [named ("unable to make path " ++ (rootPath ++ "/modules/" ++ kv.1))
            (fun fs => MkdirAll fs (rootPath ++ "/modules/" ++ kv.1)),
           named "unable to apply tree"
            (fun fs => applyTree H.toExternal fs box (rootPath ++ "/modules/" ++ kv.1)
              (Subst.modulePlan kv.2))])).flatten) fs := by
  induction m generalizing fs with
  | nil => rfl
  | cons kv rest ih =>
    rw [List.map_cons, List.flatten_cons]
    simp only [List.cons_append, List.nil_append, seqStages_cons_named]
    rw [applyModuleMap]
    cases h0 : MkdirAll fs (rootPath ++ "/modules/" ++ kv.1) with
    | mk f0 e0 =>
      cases e0 with
      | some err => rfl
      | none =>
        simp only
        cases h : applyTree H.toExternal f0 box (rootPath ++ "/modules/" ++ kv.1)
            (Subst.modulePlan kv.2) with
        | mk f e =>
          cases e with
          | none => exact ih f
          | some err => rfl

theorem applyComponent_eq (H : Host) (box : Box) (env : String) (kv : String × plan.Component)
    (fs : Fs) :
    applyComponent H box env fs kv = seqStages (componentStages H box env kv) fs := by
  unfold componentStages
  rw [seqStages_cons_named, applyComponent]
  cases h0 : MkdirAll fs (rootPath ++ "/envs/" ++ env ++ "/" ++ kv.1) with
  | mk f0 e0 =>
    cases e0 with
    | some err => rfl
    | none =>
      simp only
      rw [seqStages_cons_named]
      cases h : applyTree H.toExternal f0 box (rootPath ++ "/envs/" ++ env ++ "/" ++ kv.1)
          (Subst.component kv.2) with
      | mk f e =>
        cases e with
        | some err => rfl
        | none =>
          cases hm : kv.2.ModuleSource with
          | none => rfl
          | some a =>
            simp only [seqStages_cons_named]
            cases h2 : applyModuleInvocation H f (rootPath ++ "/envs/" ++ env ++ "/" ++ kv.1) a
                H.moduleInvocation with
            | mk f2 e2 => cases e2 <;> rfl

theorem applyComponentMap_eq (H : Host) (box : Box) (env : String) (m : GoMap plan.Component)
    (fs : Fs) :
    applyComponentMap H box env fs m
      = seqStages ((m.map (componentStages H box env)).flatten) fs := by
  induction m generalizing fs with
  | nil => rfl
  | cons kv rest ih =>
    rw [List.map_cons, List.flatten_cons, seqStages_append, applyComponentMap,
      applyComponent_eq]
    cases h : seqStages (componentStages H box env kv) fs with
    | mk f e =>
      cases e with
      | none => exact ih f
      | some err => rfl

theorem applyEnvMap_eq (H : Host) (envBox componentBox : Box) (m : GoMap plan.Env) (fs : Fs) :
    applyEnvMap H envBox componentBox fs m
      = seqStages ((m.map (envStages H envBox componentBox)).flatten) fs := by
  induction m generalizing fs with
  | nil => rfl
  | cons kv rest ih =>
    rw [List.map_cons, List.flatten_cons, seqStages_append, applyEnvMap]
    unfold envStages
    rw [seqStages_cons_named]
    cases h0 : MkdirAll fs (rootPath ++ "/envs/" ++ kv.1) with
    | mk f0 e0 =>
      cases e0 with
      | some err => rfl
      | none =>
        simp only
        rw [seqStages_cons_named]
        cases h : applyTree H.toExternal f0 envBox (rootPath ++ "/envs/" ++ kv.1)
            (Subst.env kv.2) with
        | mk f e =>
          cases e with
          | some err => rfl
          | none =>
            simp only
            rw [applyComponentMap_eq]
            cases h2 : seqStages
                ((kv.2.Components.map (componentStages H componentBox kv.1)).flatten) f with
            | mk f2 e2 =>
              cases e2 with
              | none => exact ih f2
              | some err => rfl

theorem applyGlobal_eq (H : Host) (p : plan.Component) (box : Box) (fs : Fs) :
    applyGlobal H fs p box
      = seqStages
        [named ("unable to make directory " ++ (rootPath ++ "/global"))
          (fun fs => MkdirAll fs (rootPath ++ "/global")),
         fun fs => applyTree H.toExternal fs box (rootPath ++ "/global")
          (Subst.component p)] fs := by
  rw [seqStages_cons_named, applyGlobal]
  cases h0 : MkdirAll fs (rootPath ++ "/global") with
  | mk f0 e0 =>
    cases e0 with
    | some err => rfl
    | none =>
      simp only [seqStages]
      cases h : applyTree H.toExternal f0 box (rootPath ++ "/global") (Subst.component p) with
      | mk f e => cases e <;> rfl

theorem applyRepo_eq (H : Host) (p : plan.Plan) (box : Box) (fs : Fs) :
    applyRepo H fs p box
      = seqStages
        ((fun fs => applyTree H.toExternal fs box "" (Subst.plan p)) ::
          (p.Plugins.CustomPlugins ++ p.Plugins.TerraformProviders).map
            (fun kv => named ("Error applying plugin " ++ kv.1)
              (fun fs => H.install kv.2 fs kv.1))) fs := by
  simp only [applyRepo, seqStages, applyPlugins, List.map_append]
  cases h : applyTree H.toExternal fs box "" (Subst.plan p) with
  | mk f e =>
    cases e with
    | some err => rfl
    | none =>
      simp only
      rw [seqStages_append, applyPluginMap_eq]
      simp only [applyPluginMap_eq]

theorem Apply_eq (H : Host) (fs : Fs) (conf : config.Config) (tmp : templates.T)
    (p : plan.Plan) (hp : plan.Eval H.versionString conf = .ok p) :
    Apply H fs conf tmp = seqStages (stagesOfApply H p tmp) fs := by
  simp only [Apply, hp, stagesOfApply, repoStage, accountStage, envStage, globalStage,
    moduleStage, seqStages_cons_named, applyRepo_eq, applyAccounts, applyAccountMap_eq,
    applyEnvs, applyEnvMap_eq, applyGlobal_eq, applyModules, applyModuleMap_eq]
  rfl

/-- C15 as stated fails: the global tree is applied after the accounts and the
environments, not before them.  With an account template that fails, `Apply` stops in
the account stage and the global directory has not been written, whereas the order of
the specification would have written it before failing. -/
theorem C15_counterexample :
    ∃ p, plan.Eval sampleHost.versionString config.sampleNoAccountID = .ok p ∧
      (Apply sampleHost emptyFs config.sampleNoAccountID sampleTemplatesBadAccount).2
        = some ("unable to apply accounts: unable to apply templates to account: " ++
            "unable to apply template: template: bad") ∧
      (Apply sampleHost emptyFs config.sampleNoAccountID sampleTemplatesBadAccount).1
        "terraform/global/main.tf" = none ∧
      (seqStages (stagesOfSpec sampleHost p sampleTemplatesBadAccount) emptyFs).2
        = some ("unable to apply accounts: unable to apply templates to account: " ++
            "unable to apply template: template: bad") ∧
      (seqStages (stagesOfSpec sampleHost p sampleTemplatesBadAccount) emptyFs).1
        "terraform/global/main.tf" = some (Node.file "global\n") :=
  ⟨_, rfl, by decide, by decide, by decide, by decide⟩

/-- C15, amended: `Apply` fails with `unable to evaluate plan` when the plan cannot be
built, and otherwise runs its stages in the order repository tree and plugins, account
trees, environment trees (each followed by its component trees and their module
invocations), global tree, module trees; a stage that fails ends the run, and its error
is returned wrapped with the name of the stage. -/
theorem C15_stage_order (H : Host) (fs : Fs) (conf : config.Config) (tmp : templates.T) :
    (∀ err, plan.Eval H.versionString conf = .error err →
      Apply H fs conf tmp = (fs, some (wrap err "unable to evaluate plan"))) ∧
    (∀ p, plan.Eval H.versionString conf = .ok p →
      Apply H fs conf tmp = seqStages (stagesOfApply H p tmp) fs) ∧
    (∀ (pre post : List Stage) (s : Stage) (fs0 fs1 fs2 : Fs) (e : String),
      seqStages pre fs0 = (fs1, none) → s fs1 = (fs2, some e) →
      seqStages (pre ++ s :: post) fs0 = (fs2, some e)) := by
  refine ⟨fun err he => ?_, fun p hp => Apply_eq H fs conf tmp p hp,
    fun pre post s fs0 fs1 fs2 e h1 h2 => seqStages_fails pre post s fs0 fs1 fs2 e h1 h2⟩
  simp only [Apply, he]

/-- C15, amended, at the sample configuration: the run is the run of the five stages
in the order of `Apply`, and it writes the global tree. -/
theorem C15_stage_order_witness :
    ∃ p, plan.Eval sampleHost.versionString config.sample = .ok p ∧
      Apply sampleHost emptyFs config.sample sampleTemplates
        = seqStages (stagesOfApply sampleHost p sampleTemplates) emptyFs ∧
      (Apply sampleHost emptyFs config.sample sampleTemplates).2 = none ∧
      (Apply sampleHost emptyFs config.sample sampleTemplates).1 "terraform/global/main.tf"
        = some (Node.file "global\n") :=
  ⟨_, rfl, (C15_stage_order sampleHost emptyFs config.sample sampleTemplates).2.1 _ rfl,
    by decide, by decide⟩

end apply